import Mathlib

/-!
Verification of the nanoclaw orchestration core.

This file gives a shallow embedding of the parts of the nanoclaw
repository that the checked properties are about:

* `src/nanoclaw/group_queue.py` — the per-group admission queue, modelled
  as an explicit transition system over `QueueSys`.  The Python code runs
  on a single-threaded asyncio event loop; `asyncio.create_task` only
  schedules a coroutine, whose body runs when the event loop next yields.
  The model therefore keeps a list `created` of units of work whose
  coroutine has been created but whose prologue (marking the group active
  and incrementing the global counter) has not yet run, and a list
  `running` of units whose prologue has run and which are awaiting their
  work callback.  Each event of the transition system is one synchronous
  segment of Python code between suspension points.
* `src/nanoclaw/container_runner.py` — the stdout marker-block reader,
  modelled as a fold over the list of decoded lines.
* `src/nanoclaw/ipc.py` — the `schedule_task` branch of
  `process_task_ipc`, modelled as a pure function; external library calls
  (croniter, datetime parsing, Python `int()`) are oracle parameters.
* `src/nanoclaw/db.py` — `update_task_after_run` as a record transform.
* `src/nanoclaw/mount_security.py` — mount validation; filesystem
  resolution (`Path.resolve`) and the loaded allowlist are oracle
  parameters, the rest of the logic is concrete.
-/

namespace Nanoclaw

/-! ### Group queue (src/nanoclaw/group_queue.py) -/

/-- Association-list lookup, modelling Python `dict.get` over the
insertion-ordered key/value pairs of a dict. -/
def lookupA {α : Type} (c : String) : List (String × α) → Option α
  | [] => none
  | (k, v) :: rest => if k = c then some v else lookupA c rest

/-- MAX_RETRIES constant from group_queue.py. -/
def MAX_RETRIES : Nat := 5

/-- BASE_RETRY_SECONDS constant from group_queue.py (5.0 seconds). -/
def BASE_RETRY_SECONDS : ℚ := 5

/-- Per-group runtime state `_GroupState`.  The process-handle fields
(`process`, `container_name`, `group_folder`) are omitted: they are only
read by `send_message`/`close_stdin`/`shutdown` logging, none of which the
checked claims concern. -/
structure GroupState where
  active : Bool
  pending_messages : Bool
  pending_tasks : List String
  retry_count : Nat
deriving Repr, DecidableEq

/-- Fresh state produced by `_get_group` for an unknown chat id. -/
def GroupState.init : GroupState :=
  { active := false, pending_messages := false, pending_tasks := [], retry_count := 0 }

/-- A unit of work: either a message-check run (`_run_for_group`) or a
queued-task run (`_run_task`). -/
inductive WorkUnit where
  | msgRun (chatId : String)
  | taskRun (chatId : String) (taskId : String)
deriving Repr, DecidableEq

/-- The chat id a unit of work belongs to. -/
def WorkUnit.chat : WorkUnit → String
  | .msgRun c => c
  | .taskRun c _ => c

/-- Global state of a `GroupQueue` together with the event-loop bookkeeping
needed to model asyncio faithfully: `created` holds coroutines made by
`asyncio.create_task` whose body has not started yet, `running` holds units
whose prologue has run, `retries` holds pending `_retry` timer tasks. -/
structure QueueSys where
  groups : List (String × GroupState)
  active_count : Nat
  waiting : List String
  shutting_down : Bool
  maxConcurrent : Nat
  created : List WorkUnit
  running : List WorkUnit
  retries : List String
deriving Repr, DecidableEq

/-- Initial queue state with the configured concurrency cap. -/
def initSys (maxConcurrent : Nat) : QueueSys :=
  { groups := [], active_count := 0, waiting := [], shutting_down := false,
    maxConcurrent := maxConcurrent, created := [], running := [], retries := [] }

/-- Lookup of `_get_group` (read-only view; the lazily inserted fresh entry
is observationally the same as reading `GroupState.init`). -/
def getGroup (s : QueueSys) (c : String) : GroupState :=
  (lookupA c s.groups).getD GroupState.init

/-- Write a group's state back into the association list (Python dict
assignment: replace if present, append otherwise). -/
def setGroup (gs : List (String × GroupState)) (c : String) (g : GroupState) :
    List (String × GroupState) :=
  if (lookupA c gs).isSome then
    gs.map (fun p => if p.1 = c then (c, g) else p)
  else
    gs ++ [(c, g)]

/-- GroupQueue.enqueue_message_check.  When a run can start immediately the
code calls `asyncio.create_task(self._run_for_group(...))`, which only
schedules the coroutine; hence the unit is appended to `created`. -/
def enqueue_message_check (s : QueueSys) (c : String) : QueueSys :=
  if s.shutting_down then s
  else
    let g := getGroup s c
    if g.active then
      { s with groups := setGroup s.groups c { g with pending_messages := true } }
    else if s.maxConcurrent ≤ s.active_count then
      let s' := { s with groups := setGroup s.groups c { g with pending_messages := true } }
      if c ∈ s.waiting then s' else { s' with waiting := s'.waiting ++ [c] }
    else
      { s with created := s.created ++ [WorkUnit.msgRun c] }

/-- GroupQueue.enqueue_task (the callable `fn` is opaque; tasks are
identified by their id, de-duplicated against the queued list). -/
def enqueue_task (s : QueueSys) (c : String) (taskId : String) : QueueSys :=
  if s.shutting_down then s
  else
    let g := getGroup s c
    if g.pending_tasks.any (fun t => t = taskId) then s
    else if g.active then
      { s with groups := setGroup s.groups c { g with pending_tasks := g.pending_tasks ++ [taskId] } }
    else if s.maxConcurrent ≤ s.active_count then
      let s' := { s with groups := setGroup s.groups c { g with pending_tasks := g.pending_tasks ++ [taskId] } }
      if c ∈ s.waiting then s' else { s' with waiting := s'.waiting ++ [c] }
    else
      { s with created := s.created ++ [WorkUnit.taskRun c taskId] }

/-- Start the i-th created coroutine: runs the prologue of `_run_for_group`
(sets active, clears the pending-message flag, increments the counter) or
of `_run_task` (sets active, increments the counter), up to the first
await of the work callback. -/
def startUnit (s : QueueSys) (i : Nat) : Option QueueSys :=
  match s.created[i]? with
  | none => none
  | some u =>
    let c := u.chat
    let g := getGroup s c
    let g' := match u with
      | .msgRun _ => { g with active := true, pending_messages := false }
      | .taskRun _ _ => { g with active := true }
    some { s with created := s.created.eraseIdx i,
                  running := s.running ++ [u],
                  groups := setGroup s.groups c g',
                  active_count := s.active_count + 1 }

/-- GroupQueue._schedule_retry, as a pure function of the current
retry_count: returns the delay of the scheduled retry (`none` when the
failure is dropped) and the new retry_count. -/
def schedule_retry (rc : Nat) : Option ℚ × Nat :=
  let rc' := rc + 1
  if MAX_RETRIES < rc' then (none, 0)
  else (some (BASE_RETRY_SECONDS * 2 ^ (rc' - 1)), rc')

/-- The while-loop body of GroupQueue._drain_waiting, traversing the
waiting list.  In the deferred-start semantics `self._active_count` does
not change while the loop runs (the created coroutines have not started),
so once the loop is entered it pops every waiting group. -/
def drainWaitingGo (gs : List (String × GroupState)) :
    List String → List (String × GroupState) × List WorkUnit
  | [] => (gs, [])
  | c :: rest =>
    let g := (lookupA c gs).getD GroupState.init
    match g.pending_tasks with
    | t :: ts =>
      let gs' := setGroup gs c { g with pending_tasks := ts }
      let r := drainWaitingGo gs' rest
      (r.1, WorkUnit.taskRun c t :: r.2)
    | [] =>
      if g.pending_messages = true then
        let r := drainWaitingGo gs rest
        (r.1, WorkUnit.msgRun c :: r.2)
      else
        drainWaitingGo gs rest

/-- GroupQueue._drain_waiting. -/
def drain_waiting (s : QueueSys) : QueueSys :=
  if s.active_count < s.maxConcurrent then
    let r := drainWaitingGo s.groups s.waiting
    { s with groups := r.1, waiting := [], created := s.created ++ r.2 }
  else s

/-- GroupQueue._drain_group. -/
def drain_group (s : QueueSys) (c : String) : QueueSys :=
  if s.shutting_down = true then s
  else
    let g := getGroup s c
    match g.pending_tasks with
    | t :: ts =>
      { s with groups := setGroup s.groups c { g with pending_tasks := ts },
               created := s.created ++ [WorkUnit.taskRun c t] }
    | [] =>
      if g.pending_messages = true then
        { s with created := s.created ++ [WorkUnit.msgRun c] }
      else
        drain_waiting s

/-- Finish the i-th running unit: the epilogue of `_run_for_group` (retry
bookkeeping on the reported boolean, then the finally-block: clear active,
decrement the counter, drain) or of `_run_task` (exceptions swallowed,
then the same finally-block). -/
def finishUnit (s : QueueSys) (i : Nat) (success : Bool) : Option QueueSys :=
  match s.running[i]? with
  | none => none
  | some u =>
    let s0 := { s with running := s.running.eraseIdx i }
    let c := u.chat
    let s1 := match u with
      | .msgRun _ =>
        let g := getGroup s0 c
        if success then
          { s0 with groups := setGroup s0.groups c { g with retry_count := 0 } }
        else
          let r := schedule_retry g.retry_count
          let s' := { s0 with groups := setGroup s0.groups c { g with retry_count := r.2 } }
          match r.1 with
          | some _ => { s' with retries := s'.retries ++ [c] }
          | none => s'
      | .taskRun _ _ => s0
    let g1 := getGroup s1 c
    let s2 := { s1 with groups := setGroup s1.groups c { g1 with active := false },
                        active_count := s1.active_count - 1 }
    some (drain_group s2 c)

/-- Events of the queue transition system: each is one synchronous segment
of the Python code. -/
inductive QEvent where
  | enqMsg (c : String)
  | enqTask (c : String) (taskId : String)
  | start (i : Nat)
  | finish (i : Nat) (success : Bool)
  | retryFire (i : Nat)
  | shutdown
deriving Repr, DecidableEq

/-- One step of the queue transition system (`none` = the event is not
enabled, e.g. an out-of-range index). -/
def qstep (s : QueueSys) : QEvent → Option QueueSys
  | .enqMsg c => some (enqueue_message_check s c)
  | .enqTask c t => some (enqueue_task s c t)
  | .start i => startUnit s i
  | .finish i ok => finishUnit s i ok
  | .retryFire i =>
    match s.retries[i]? with
    | none => none
    | some c =>
      let s' := { s with retries := s.retries.eraseIdx i }
      some (if s'.shutting_down then s' else enqueue_message_check s' c)
  | .shutdown => some { s with shutting_down := true }

/-- Run a sequence of events. -/
def qrun (s : QueueSys) : List QEvent → Option QueueSys
  | [] => some s
  | e :: es => (qstep s e).bind (fun s' => qrun s' es)

/-! ### Intended synchronous-start semantics of the group queue

The TypeScript original that group_queue.py declares itself a port of
invoked `void this.runForGroup(...)`: calling a JS async function runs
its body synchronously up to the first await, so the prologue (mark the
group active, increment the counter) executed at the call.  The
definitions below model the same queue code under that intended
semantics: a started unit of work runs its prologue immediately instead
of being deferred to a `created` list.  The invariants the deferred
Python semantics violates are provable here. -/

/-- Queue state under the synchronous-start semantics (no `created`
list: a unit is running as soon as it is started). -/
structure ESys where
  groups : List (String × GroupState)
  active_count : Nat
  waiting : List String
  shutting_down : Bool
  maxConcurrent : Nat
  running : List WorkUnit
  retries : List String
deriving Repr, DecidableEq

/-- Initial state with the configured cap. -/
def einitSys (maxConcurrent : Nat) : ESys :=
  { groups := [], active_count := 0, waiting := [], shutting_down := false,
    maxConcurrent := maxConcurrent, running := [], retries := [] }

/-- Group lookup. -/
def egetGroup (s : ESys) (c : String) : GroupState :=
  (lookupA c s.groups).getD GroupState.init

/-- Synchronous prologue of `_run_for_group`. -/
def estartMsg (s : ESys) (c : String) : ESys :=
  let g := egetGroup s c
  { s with groups := setGroup s.groups c
             { g with active := true, pending_messages := false },
           active_count := s.active_count + 1,
           running := s.running ++ [WorkUnit.msgRun c] }

/-- Synchronous prologue of `_run_task`. -/
def estartTask (s : ESys) (c : String) (taskId : String) : ESys :=
  let g := egetGroup s c
  { s with groups := setGroup s.groups c { g with active := true },
           active_count := s.active_count + 1,
           running := s.running ++ [WorkUnit.taskRun c taskId] }

/-- enqueue_message_check under synchronous start. -/
def eenqueue_message_check (s : ESys) (c : String) : ESys :=
  if s.shutting_down = true then s
  else
    let g := egetGroup s c
    if g.active = true then
      { s with groups := setGroup s.groups c { g with pending_messages := true } }
    else if s.maxConcurrent ≤ s.active_count then
      let s' := { s with groups := setGroup s.groups c { g with pending_messages := true } }
      if c ∈ s.waiting then s' else { s' with waiting := s'.waiting ++ [c] }
    else
      estartMsg s c

/-- enqueue_task under synchronous start. -/
def eenqueue_task (s : ESys) (c : String) (taskId : String) : ESys :=
  if s.shutting_down = true then s
  else
    let g := egetGroup s c
    if g.pending_tasks.any (fun t => t = taskId) then s
    else
      let gq : GroupState := { g with pending_tasks := g.pending_tasks ++ [taskId] }
      if g.active = true then
        { s with groups := setGroup s.groups c gq }
      else if s.maxConcurrent ≤ s.active_count then
        let s' := { s with groups := setGroup s.groups c gq }
        if c ∈ s.waiting then s' else { s' with waiting := s'.waiting ++ [c] }
      else
        estartTask s c taskId

/-- The `_drain_waiting` loop under synchronous start: the popped list is
the first argument, the state's waiting list has been emptied; when the
cap is reached mid-loop the unprocessed remainder is put back. -/
def edrainWaitingGo : List String → ESys → ESys
  | [], s => s
  | c :: rest, s =>
    if s.active_count < s.maxConcurrent then
      let g := egetGroup s c
      match g.pending_tasks with
      | t :: ts =>
        edrainWaitingGo rest
          (estartTask { s with groups := setGroup s.groups c { g with pending_tasks := ts } } c t)
      | [] =>
        if g.pending_messages = true then edrainWaitingGo rest (estartMsg s c)
        else edrainWaitingGo rest s
    else
      { s with waiting := c :: rest }

/-- `_drain_waiting` under synchronous start. -/
def edrain_waiting (s : ESys) : ESys :=
  edrainWaitingGo s.waiting { s with waiting := [] }

/-- `_drain_group` under synchronous start. -/
def edrain_group (s : ESys) (c : String) : ESys :=
  if s.shutting_down = true then s
  else
    let g := egetGroup s c
    match g.pending_tasks with
    | t :: ts =>
      estartTask { s with groups := setGroup s.groups c { g with pending_tasks := ts } } c t
    | [] =>
      if g.pending_messages = true then estartMsg s c
      else edrain_waiting s

/-- Finish the i-th running unit under synchronous start (same epilogue
as the deferred model, with an eager drain). -/
def efinish (s : ESys) (i : Nat) (success : Bool) : Option ESys :=
  match s.running[i]? with
  | none => none
  | some u =>
    let s0 := { s with running := s.running.eraseIdx i }
    let c := u.chat
    let s1 := match u with
      | .msgRun _ =>
        let g := egetGroup s0 c
        if success then
          { s0 with groups := setGroup s0.groups c { g with retry_count := 0 } }
        else
          let r := schedule_retry g.retry_count
          let s' := { s0 with groups := setGroup s0.groups c { g with retry_count := r.2 } }
          match r.1 with
          | some _ => { s' with retries := s'.retries ++ [c] }
          | none => s'
      | .taskRun _ _ => s0
    let g1 := egetGroup s1 c
    let s2 := { s1 with groups := setGroup s1.groups c { g1 with active := false },
                        active_count := s1.active_count - 1 }
    some (edrain_group s2 c)

/-- Events of the synchronous-start transition system. -/
inductive EEvent where
  | enqMsg (c : String)
  | enqTask (c : String) (taskId : String)
  | finish (i : Nat) (success : Bool)
  | retryFire (i : Nat)
  | shutdown
deriving Repr, DecidableEq

/-- One step of the synchronous-start system. -/
def estep (s : ESys) : EEvent → Option ESys
  | .enqMsg c => some (eenqueue_message_check s c)
  | .enqTask c t => some (eenqueue_task s c t)
  | .finish i ok => efinish s i ok
  | .retryFire i =>
    match s.retries[i]? with
    | none => none
    | some c =>
      let s' := { s with retries := s.retries.eraseIdx i }
      some (if s'.shutting_down then s' else eenqueue_message_check s' c)
  | .shutdown => some { s with shutting_down := true }

/-- Run a sequence of events in the synchronous-start system. -/
def erun (s : ESys) : List EEvent → Option ESys
  | [] => some s
  | e :: es => (estep s e).bind (fun s' => erun s' es)

/-! ### Container output reader (src/nanoclaw/container_runner.py) -/

/-- OUTPUT_START marker constant. -/
def OUTPUT_START : String := "===OUTPUT_START==="

/-- OUTPUT_END marker constant. -/
def OUTPUT_END : String := "===OUTPUT_END==="

/-- ContainerOutput pydantic model. -/
structure ContainerOutput where
  status : String
  result : Option String
  new_session_id : Option String
  error : Option String
deriving Repr, DecidableEq

/-- The default terminal value used before any block parses. -/
def noOutputReceived : ContainerOutput :=
  { status := "error", result := none, new_session_id := none,
    error := some "No output received" }

/-- Loop state of `_read_container_output`: the current terminal value,
the accumulation buffer, the inside-a-block flag, the cumulative byte
counter, and (for the `on_output` callback) the list of envelopes parsed
so far, in order of delivery. -/
structure RState where
  final : ContainerOutput
  buffer : List String
  in_output : Bool
  total_size : Nat
  outputs : List ContainerOutput
deriving Repr, DecidableEq

/-- State at entry of the read loop. -/
def initRState : RState :=
  { final := noOutputReceived, buffer := [], in_output := false,
    total_size := 0, outputs := [] }

/-- One iteration of the while-loop of `_read_container_output` on one
decoded line.  `parse` is the oracle for `json.loads` composed with the
ContainerOutput field extraction (returning `none` when `json.loads`
raises `JSONDecodeError`). -/
def readStep (parse : String → Option ContainerOutput) (maxSize : Nat)
    (st : RState) (line : String) : RState :=
  if line = OUTPUT_START then
    { st with in_output := true, buffer := [] }
  else if line = OUTPUT_END ∧ st.in_output then
    let raw := String.intercalate "\n" st.buffer
    match parse raw with
    | some out =>
      { st with in_output := false, final := out, outputs := st.outputs ++ [out] }
    | none => { st with in_output := false }
  else if st.in_output then
    let sz := st.total_size + line.length
    if maxSize < sz then { st with total_size := sz, in_output := false }
    else { st with total_size := sz, buffer := st.buffer ++ [line] }
  else st

/-- The whole read loop, folding over the decoded lines of stdout. -/
def readLines (parse : String → Option ContainerOutput) (maxSize : Nat)
    (st : RState) (lines : List String) : RState :=
  lines.foldl (readStep parse maxSize) st

/-- Function `_read_container_output` on a finite stdout stream. -/
def read_container_output (parse : String → Option ContainerOutput)
    (maxSize : Nat) (lines : List String) : RState :=
  readLines parse maxSize initRState lines

/-- Modelled from the spec: the raw contents of the well-formed
begin-marker/end-marker delimited blocks of a stream, in stream order,
ignoring unmatched markers and noise lines.  This is the specification
side of the refinement claim about the reader; it performs no size
capping and no JSON parsing. -/
def specBlocksGo (inOut : Bool) (buf : List String) : List String → List String
  | [] => []
  | l :: rest =>
    if l = OUTPUT_START then specBlocksGo true [] rest
    else if l = OUTPUT_END ∧ inOut then
      String.intercalate "\n" buf :: specBlocksGo false buf rest
    else if inOut then specBlocksGo true (buf ++ [l]) rest
    else specBlocksGo inOut buf rest

/-- Modelled from the spec: well-formed block contents of a whole stream. -/
def specBlocks (lines : List String) : List String :=
  specBlocksGo false [] lines

/-- Total number of characters appearing on lines inside blocks, the
quantity the reader accumulates into `total_size`. -/
def specSizeGo (inOut : Bool) : List String → Nat
  | [] => 0
  | l :: rest =>
    if l = OUTPUT_START then specSizeGo true rest
    else if l = OUTPUT_END ∧ inOut then specSizeGo false rest
    else if inOut then l.length + specSizeGo true rest
    else specSizeGo inOut rest

/-- Block-content size of a whole stream. -/
def specSize (lines : List String) : Nat :=
  specSizeGo false lines

/-! ### Scheduled tasks and IPC (src/nanoclaw/ipc.py, db.py, task_scheduler.py) -/

/-- ScheduledTask pydantic model / scheduled_tasks row. -/
structure ScheduledTask where
  id : String
  group_folder : String
  chat_id : String
  prompt : String
  schedule_type : String
  schedule_value : String
  context_mode : String
  next_run : Option String
  status : String
  created_at : String
  last_run : Option String
  last_result : Option String
deriving Repr, DecidableEq

/-- RegisteredGroup pydantic model (the fields the IPC logic reads). -/
structure RegisteredGroup where
  name : String
  folder : String
deriving Repr, DecidableEq

/-- Oracles for the external library calls made by the schedule logic:
`cronNext v` models `croniter(v)` followed by `get_next` rendered as an
ISO timestamp (`none` when croniter raises ValueError/KeyError);
`parseIso v` models `datetime.fromisoformat(v).isoformat()` (`none` when
it raises ValueError); `parseInt v` models Python `int(v)` (`none` when it
raises ValueError); `intervalNext ms` is the ISO rendering of
`now + ms/1000`; `nowIso` is `datetime.now(timezone.utc).isoformat()`;
`freshTaskId` is the generated `task-<millis>-<uuid8>` id. -/
structure IpcEnv where
  cronNext : String → Option String
  parseIso : String → Option String
  parseInt : String → Option Int
  intervalNext : Int → String
  nowIso : String
  freshTaskId : String

/-- The fields of a `schedule_task` IPC request read by the handler
(`data.get(...)`: `none` models an absent key or JSON null). -/
structure ScheduleRequest where
  prompt : Option String
  schedule_type : Option String
  schedule_value : Option String
  targetChatId : Option String
  targetJid : Option String
  context_mode : Option String
deriving Repr, DecidableEq

/-- Python truthiness of an optional string. -/
def pyTruthy : Option String → Bool
  | none => false
  | some s => !s.isEmpty

/-- Python `a or b` on optional strings (used for
`data.get("targetChatId") or data.get("targetJid")`). -/
def pyOrOpt (a b : Option String) : Option String :=
  if pyTruthy a then a else b

/-- Result of processing one `schedule_task` request: a job was created
and stored, or the request was dropped by an early return, or an uncaught
exception propagated to the poll loop (which quarantines the file); in
the last two cases the store is not mutated. -/
inductive ScheduleOutcome where
  | created (t : ScheduledTask)
  | rejected
  | raised
deriving Repr, DecidableEq

/-- The job stored by the outcome, if any. -/
def ScheduleOutcome.job : ScheduleOutcome → Option ScheduledTask
  | .created t => some t
  | .rejected => none
  | .raised => none

/-- The `schedule_task` branch of `process_task_ipc`, as a pure function
of the request, the mailbox of origin (`sourceGroup`, `isMain`) and the
registered-groups map. -/
def schedule_task_ipc (env : IpcEnv) (data : ScheduleRequest)
    (sourceGroup : String) (isMain : Bool)
    (registeredGroups : List (String × RegisteredGroup)) : ScheduleOutcome :=
  let targetChatId := pyOrOpt data.targetChatId data.targetJid
  if ¬(pyTruthy data.prompt && pyTruthy data.schedule_type &&
        pyTruthy data.schedule_value && pyTruthy targetChatId) then
    .rejected
  else
    match lookupA (targetChatId.getD "") registeredGroups with
    | none => .rejected
    | some targetGroup =>
      if isMain = false ∧ targetGroup.folder ≠ sourceGroup then .rejected
      else
        let st := data.schedule_type.getD ""
        let sv := data.schedule_value.getD ""
        let contextMode := match data.context_mode with
          | none => "isolated"
          | some cm => if cm = "group" ∨ cm = "isolated" then cm else "isolated"
        let mk : Option String → ScheduleOutcome := fun nextRun =>
          .created { id := env.freshTaskId, group_folder := targetGroup.folder,
                     chat_id := targetChatId.getD "", prompt := data.prompt.getD "",
                     schedule_type := st, schedule_value := sv,
                     context_mode := contextMode, next_run := nextRun,
                     status := "active", created_at := env.nowIso,
                     last_run := none, last_result := none }
        if st = "cron" then
          match env.cronNext sv with
          | none => .rejected
          | some nr => mk (some nr)
        else if st = "interval" then
          match env.parseInt sv with
          | none => .raised
          | some ms => if ms ≤ 0 then .rejected else mk (some (env.intervalNext ms))
        else if st = "once" then
          match env.parseIso sv with
          | none => .rejected
          | some nr => mk (some nr)
        else
          mk none

/-- The next_run computation at the end of `_run_task` in
task_scheduler.py (`none` in the outer option models croniter or `int()`
raising, in which case `update_task_after_run` is never reached). -/
def computeNextRunAfter (env : IpcEnv) (t : ScheduledTask) : Option (Option String) :=
  if t.schedule_type = "cron" then
    match env.cronNext t.schedule_value with
    | none => none
    | some nr => some (some nr)
  else if t.schedule_type = "interval" then
    match env.parseInt t.schedule_value with
    | none => none
    | some ms => some (some (env.intervalNext ms))
  else
    some none

/-- Function `update_task_after_run` from db.py as a row transform: sets next_run,
last_run and last_result, and marks the task completed exactly when the
new next_run is NULL. -/
def update_task_after_run (t : ScheduledTask) (nextRun : Option String)
    (now : String) (lastResult : String) : ScheduledTask :=
  { t with next_run := nextRun, last_run := some now,
           last_result := some lastResult,
           status := if nextRun = none then "completed" else t.status }

/-- The spec's data-model invariant on a task row: next_run is null iff
the job is a completed one-shot. -/
def nextRunInv (t : ScheduledTask) : Prop :=
  t.next_run = none ↔ (t.schedule_type = "once" ∧ t.status = "completed")

/-! ### Mount security (src/nanoclaw/mount_security.py) -/

/-- AdditionalMount pydantic model. -/
structure AdditionalMount where
  host_path : String
  container_path : Option String
  readonly : Bool
deriving Repr, DecidableEq

/-- AllowedRoot pydantic model. -/
structure AllowedRoot where
  path : String
  allow_read_write : Bool
  description : Option String
deriving Repr, DecidableEq

/-- MountAllowlist pydantic model (as returned by load_mount_allowlist,
i.e. with the default blocked patterns already merged in). -/
structure MountAllowlist where
  allowed_roots : List AllowedRoot
  blocked_patterns : List String
  non_main_read_only : Bool
deriving Repr, DecidableEq

/-- Filesystem oracles for mount validation: `allowlist` is the cached
result of `load_mount_allowlist()`; `expandPath` models `_expand_path`
(home expansion plus `Path.resolve`); `realPath` models `_get_real_path`
(`Path.resolve(strict=True)`, `none` when the path does not exist). -/
structure MountEnv where
  allowlist : Option MountAllowlist
  expandPath : String → String
  realPath : String → Option String

/-- Whether one character list starts with another (kernel-computable
counterpart of `str.startswith`). -/
def isPrefixList : List Char → List Char → Bool
  | [], _ => true
  | _ :: _, [] => false
  | a :: as, b :: bs => a == b && isPrefixList as bs

/-- Substring containment over character lists, modelling Python
`pat in hay`. -/
def containsSub (pat : List Char) : List Char → Bool
  | [] => isPrefixList pat []
  | c :: t => isPrefixList pat (c :: t) || containsSub pat t

/-- Python `pat in s` on strings. -/
def strContains (s pat : String) : Bool :=
  containsSub pat.data s.data

/-- Split a character list at a separator character, modelling
`str.split(sep)` for the one-character separator `os.sep`. -/
def splitChar (sep : Char) : List Char → List (List Char)
  | [] => [[]]
  | c :: rest =>
    if c = sep then [] :: splitChar sep rest
    else
      match splitChar sep rest with
      | [] => [[c]]
      | h :: t => (c :: h) :: t

/-- Function `_matches_blocked_pattern` (boolean view: the source returns the
matching pattern, which is used only in the logged reason). -/
def matchesBlockedPattern (realPath : String) (patterns : List String) : Bool :=
  let parts := splitChar '/' realPath.data
  patterns.any (fun pat =>
    parts.any (fun part => part == pat.data || containsSub pat.data part) ||
    containsSub pat.data realPath.data)

/-- Whether `p` is under the directory `root`, modelling
`Path(p).relative_to(root)` succeeding for resolved absolute paths. -/
def isUnderRoot (root p : String) : Bool :=
  p.data == root.data ||
    isPrefixList
      (if root.data.getLast? == some '/' then root.data else root.data ++ ['/'])
      p.data

/-- Function `_find_allowed_root`. -/
def findAllowedRoot (env : MountEnv) (realPath : String)
    (roots : List AllowedRoot) : Option AllowedRoot :=
  roots.find? (fun root =>
    match env.realPath (env.expandPath root.path) with
    | none => false
    | some realRoot => isUnderRoot realRoot realPath)

/-- Python whitespace characters recognized by `str.strip()`. -/
def pyIsSpace (c : Char) : Bool :=
  c == ' ' || c == '\t' || c == '\n' || c == '\r' || c == '\x0b' || c == '\x0c'

/-- Function `_is_valid_container_path` (the emptiness test `not cp or not
cp.strip()` holds exactly when every character is whitespace). -/
def isValidContainerPath (cp : String) : Bool :=
  if containsSub ['.', '.'] cp.data then false
  else if isPrefixList ['/'] cp.data then false
  else if cp.data.all pyIsSpace then false
  else true

/-- Python `Path(p).name`: the final path component. -/
def pathBasename (p : String) : String :=
  match ((splitChar '/' p.data).filter (fun l => !l.isEmpty)).getLast? with
  | some l => String.mk l
  | none => ""

/-- MountValidationResult (the logged `reason` strings are omitted). -/
structure MountValidationResult where
  allowed : Bool
  real_host_path : Option String
  resolved_container_path : Option String
  effective_readonly : Option Bool
deriving Repr, DecidableEq

/-- A rejection result (allowed=False, no paths, no readonly). -/
def mountRejected : MountValidationResult :=
  { allowed := false, real_host_path := none, resolved_container_path := none,
    effective_readonly := none }

/-- Function `validate_mount`. -/
def validate_mount (env : MountEnv) (mount : AdditionalMount) (isMain : Bool) :
    MountValidationResult :=
  match env.allowlist with
  | none => mountRejected
  | some allowlist =>
    let containerPath := match mount.container_path with
      | some cp => if cp.data.isEmpty then pathBasename mount.host_path else cp
      | none => pathBasename mount.host_path
    if ¬isValidContainerPath containerPath then mountRejected
    else
      match env.realPath (env.expandPath mount.host_path) with
      | none => mountRejected
      | some realPathStr =>
        if matchesBlockedPattern realPathStr allowlist.blocked_patterns then
          mountRejected
        else
          match findAllowedRoot env realPathStr allowlist.allowed_roots with
          | none => mountRejected
          | some allowedRoot =>
            let requestedReadWrite := mount.readonly = false
            let effectiveReadonly :=
              if requestedReadWrite then
                if isMain = false ∧ allowlist.non_main_read_only = true then true
                else if allowedRoot.allow_read_write = false then true
                else false
              else true
            { allowed := true, real_host_path := some realPathStr,
              resolved_container_path := some containerPath,
              effective_readonly := some effectiveReadonly }

/-- ValidatedMount. -/
structure ValidatedMount where
  host_path : String
  container_path : String
  readonly : Bool
deriving Repr, DecidableEq

/-- Python `x or True` on an optional boolean (the expression
`result.effective_readonly or True` in validate_additional_mounts). -/
def pyOrTrue : Option Bool → Bool
  | some b => b || true
  | none => true

/-- Python `x or ""` on an optional string. -/
def pyOrEmptyStr : Option String → String
  | some s => s
  | none => ""

/-- Function `validate_additional_mounts`. -/
def validate_additional_mounts (env : MountEnv) (mounts : List AdditionalMount)
    (_groupName : String) (isMain : Bool) : List ValidatedMount :=
  mounts.filterMap (fun m =>
    let r := validate_mount env m isMain
    if r.allowed then
      some { host_path := pyOrEmptyStr r.real_host_path,
             container_path := "/workspace/extra/" ++ r.resolved_container_path.getD "None",
             readonly := pyOrTrue r.effective_readonly }
    else none)

/-! ### Theorems: group queue concurrency (C1, C2, C5, C8) -/

/-- Event trace for the global-cap violation: with the cap configured to 1
(MAX_CONCURRENT_CONTAINERS=1), group "a" starts a run, groups "b" and "c"
enqueue while the slot is taken and join the waiting list, "a" finishes,
and `_drain_waiting` creates coroutines for BOTH waiting groups (the
counter is only incremented when each coroutine later starts), which then
both start. -/
def capTrace : List QEvent :=
  [QEvent.enqMsg "a", QEvent.start 0, QEvent.enqMsg "b", QEvent.enqMsg "c",
   QEvent.finish 0 true, QEvent.start 0, QEvent.start 0]

/-- C1: refuted on the code — the global active count CAN exceed the
configured cap.  Running `capTrace` from the initial state with cap 1
reaches a state with two simultaneously active units of work (two started
`_run_for_group` coroutines, active_count = 2 > 1): the admission check
reads `_active_count` before the started coroutines have incremented it. -/
theorem c1_cap_exceeded :
    (qrun (initSys 1) capTrace).map QueueSys.active_count = some 2 ∧
    (initSys 1).maxConcurrent = 1 ∧
    (qrun (initSys 1) capTrace).map (fun s => s.running.length) = some 2 :=
  ⟨rfl, rfl, rfl⟩

/-- Event trace for the per-group violation: two `enqueue_message_check`
calls for the same group inside one synchronous segment (e.g. a retry
timer firing in the same event-loop batch as the message-poll loop) both
see `active = False` and both create a `_run_for_group` coroutine. -/
def dupTrace : List QEvent :=
  [QEvent.enqMsg "a", QEvent.enqMsg "a", QEvent.start 0, QEvent.start 0]

/-- C2: refuted on the code — two units of work can be active for the
same group at the same instant.  Running `dupTrace` from the initial
state with the default cap 5 reaches a state where two started message
runs for group "a" coexist. -/
theorem c2_two_active_same_group :
    (qrun (initSys 5) dupTrace).map
        (fun s => ((s.running.filter (fun u => u.chat == "a")).length,
                   (getGroup s "a").active))
      = some (2, true) :=
  rfl

/-- Neither `_drain_group` nor `_drain_waiting` touches the pending
retry timers. -/
theorem drain_group_retries (s : QueueSys) (c : String) :
    (drain_group s c).retries = s.retries := by
  simp only [drain_group]
  by_cases hsd : s.shutting_down = true
  · rw [if_pos hsd]
  · rw [if_neg hsd]
    rcases hpt : (getGroup s c).pending_tasks with _ | ⟨t, ts⟩
    · simp only [hpt]
      by_cases hpm : (getGroup s c).pending_messages = true
      · rw [if_pos hpm]
      · rw [if_neg hpm]
        simp only [drain_waiting]
        by_cases hcap : s.active_count < s.maxConcurrent
        · rw [if_pos hcap]
        · rw [if_neg hcap]
    · simp only [hpt]

/-- C5: the retry policy for failed message checks.  First conjunct:
from retry_count = k, the (k+1)-st consecutive failure schedules a retry
after BASE_RETRY_SECONDS * 2^k seconds (base * 2^(retry_count-1) for the
incremented retry_count) as long as the incremented count does not exceed
MAX_RETRIES = 5, giving successive delays base*2^0, base*2^1, ...
Second conjunct: the failure after the fifth retry resets the count to
zero and schedules nothing.  Third conjunct: in the transition system,
finishing a message run unsuccessfully adds a pending retry timer for
that group exactly when the retry budget is not exhausted. -/
theorem c5_retry_backoff :
    (∀ k : Nat, k + 1 ≤ MAX_RETRIES →
        schedule_retry k = (some (BASE_RETRY_SECONDS * 2 ^ k), k + 1)) ∧
    schedule_retry MAX_RETRIES = (none, 0) ∧
    (∀ (s : QueueSys) (i : Nat) (c : String) (s' : QueueSys),
        s.running[i]? = some (WorkUnit.msgRun c) →
        finishUnit s i false = some s' →
        ((getGroup s c).retry_count + 1 ≤ MAX_RETRIES →
            s'.retries = s.retries ++ [c]) ∧
        (MAX_RETRIES < (getGroup s c).retry_count + 1 →
            s'.retries = s.retries)) := by
  refine ⟨?_, rfl, ?_⟩
  · intro k hk
    simp only [schedule_retry]
    rw [if_neg (by omega)]
    simp
  · intro s i c s' hrun hfin
    simp only [finishUnit, hrun, WorkUnit.chat, Bool.false_eq_true, if_false] at hfin
    have hg : (getGroup { s with running := s.running.eraseIdx i } c).retry_count
        = (getGroup s c).retry_count := rfl
    constructor
    · intro hle
      have hsr : schedule_retry
          (getGroup { s with running := s.running.eraseIdx i } c).retry_count
          = (some (BASE_RETRY_SECONDS * 2 ^ (getGroup s c).retry_count),
             (getGroup s c).retry_count + 1) := by
        rw [hg]
        simp only [schedule_retry]
        rw [if_neg (by omega)]
        rfl
      rw [hsr] at hfin
      dsimp only at hfin
      have hs' := Option.some.inj hfin
      rw [← hs', drain_group_retries]
    · intro hgt
      have hsr : schedule_retry
          (getGroup { s with running := s.running.eraseIdx i } c).retry_count
          = (none, 0) := by
        rw [hg]
        simp only [schedule_retry]
        rw [if_pos hgt]
      rw [hsr] at hfin
      dsimp only at hfin
      have hs' := Option.some.inj hfin
      rw [← hs', drain_group_retries]

/-- Witness for C5 at the first failure: the first retry is scheduled
after BASE_RETRY_SECONDS * 2^0 seconds. -/
theorem c5_retry_backoff_witness :
    schedule_retry 0 = (some (BASE_RETRY_SECONDS * 2 ^ 0), 1) ∧
    schedule_retry MAX_RETRIES = (none, 0) :=
  ⟨c5_retry_backoff.1 0 (by decide), c5_retry_backoff.2.1⟩

theorem lookupA_replace_self (gs : List (String × GroupState)) (c : String)
    (g : GroupState) (h : (lookupA c gs).isSome) :
    lookupA c (gs.map (fun p => if p.1 = c then (c, g) else p)) = some g := by
  induction gs with
  | nil => simp [lookupA] at h
  | cons a t ih =>
    obtain ⟨k, v⟩ := a
    simp only [List.map_cons]
    by_cases hc : k = c
    · rw [show ((if (k, v).1 = c then (c, g) else (k, v)) = (c, g)) from if_pos hc]
      simp [lookupA]
    · rw [show ((if (k, v).1 = c then (c, g) else (k, v)) = (k, v)) from if_neg hc]
      rw [lookupA, if_neg hc]
      apply ih
      rw [lookupA, if_neg hc] at h
      exact h

theorem lookupA_replace_ne (gs : List (String × GroupState)) (c d : String)
    (g : GroupState) (hdc : d ≠ c) :
    lookupA d (gs.map (fun p => if p.1 = c then (c, g) else p)) = lookupA d gs := by
  induction gs with
  | nil => simp
  | cons a t ih =>
    obtain ⟨k, v⟩ := a
    simp only [List.map_cons]
    by_cases hc : k = c
    · rw [show ((if (k, v).1 = c then (c, g) else (k, v)) = (c, g)) from if_pos hc]
      rw [lookupA, if_neg (fun hh => hdc hh.symm)]
      rw [lookupA, if_neg (fun hh => hdc (hc ▸ hh : c = d).symm)]
      exact ih
    · rw [show ((if (k, v).1 = c then (c, g) else (k, v)) = (k, v)) from if_neg hc]
      rw [lookupA, lookupA]
      by_cases hk : k = d
      · rw [if_pos hk, if_pos hk]
      · rw [if_neg hk, if_neg hk]
        exact ih

theorem lookupA_append_single (gs : List (String × GroupState)) (c : String)
    (g : GroupState) (h : lookupA c gs = none) :
    lookupA c (gs ++ [(c, g)]) = some g := by
  induction gs with
  | nil => simp [lookupA]
  | cons a t ih =>
    obtain ⟨k, v⟩ := a
    rw [List.cons_append, lookupA]
    rw [lookupA] at h
    by_cases hk : k = c
    · rw [if_pos hk] at h
      exact absurd h (by simp)
    · rw [if_neg hk] at h ⊢
      exact ih h

theorem lookupA_append_single_ne (gs : List (String × GroupState)) (c d : String)
    (g : GroupState) (hdc : d ≠ c) :
    lookupA d (gs ++ [(c, g)]) = lookupA d gs := by
  induction gs with
  | nil =>
    show lookupA d [(c, g)] = none
    rw [lookupA, if_neg (fun hh => hdc hh.symm), lookupA]
  | cons a t ih =>
    obtain ⟨k, v⟩ := a
    rw [List.cons_append, lookupA, lookupA]
    by_cases hk : k = d
    · rw [if_pos hk, if_pos hk]
    · rw [if_neg hk, if_neg hk]
      exact ih

/-- Reading back the key just written by `setGroup`. -/
theorem lookupA_setGroup_self (gs : List (String × GroupState)) (c : String)
    (g : GroupState) : lookupA c (setGroup gs c g) = some g := by
  unfold setGroup
  by_cases h : (lookupA c gs).isSome
  · rw [if_pos h]
    exact lookupA_replace_self gs c g h
  · rw [if_neg h]
    rw [Option.not_isSome_iff_eq_none] at h
    exact lookupA_append_single gs c g h

/-- Writing with `setGroup` leaves other keys unchanged. -/
theorem lookupA_setGroup_ne (gs : List (String × GroupState)) (c d : String)
    (g : GroupState) (hdc : d ≠ c) :
    lookupA d (setGroup gs c g) = lookupA d gs := by
  unfold setGroup
  by_cases h : (lookupA c gs).isSome
  · rw [if_pos h]
    exact lookupA_replace_ne gs c d g hdc
  · rw [if_neg h]
    exact lookupA_append_single_ne gs c d g hdc

/-- Every unit emitted by the `_drain_waiting` loop belongs to a group
that was on the waiting list. -/
theorem drainWaitingGo_chats (w : List String) :
    ∀ (gs : List (String × GroupState)) (u : WorkUnit),
      u ∈ (drainWaitingGo gs w).2 → u.chat ∈ w := by
  induction w with
  | nil => intro gs u hu; simp [drainWaitingGo] at hu
  | cons c rest ih =>
    intro gs u hu
    rcases hpt : ((lookupA c gs).getD GroupState.init).pending_tasks with _ | ⟨t, ts⟩
    · simp only [drainWaitingGo, hpt] at hu
      by_cases hpm : ((lookupA c gs).getD GroupState.init).pending_messages = true
      · rw [if_pos hpm] at hu
        rcases List.mem_cons.mp hu with h | h
        · subst h; exact List.mem_cons_self _ _
        · exact List.mem_cons_of_mem _ (ih _ _ h)
      · rw [if_neg hpm] at hu
        exact List.mem_cons_of_mem _ (ih _ _ hu)
    · simp only [drainWaitingGo, hpt] at hu
      rcases List.mem_cons.mp hu with h | h
      · subst h; exact List.mem_cons_self _ _
      · exact List.mem_cons_of_mem _ (ih _ _ h)

/-- A message-check unit is only emitted by the `_drain_waiting` loop for
a group whose task queue (in the state at loop entry) is empty, provided
the waiting list has no duplicates. -/
theorem drainWaitingGo_msgRun (w : List String) :
    ∀ (gs : List (String × GroupState)), w.Nodup → ∀ (d : String),
      WorkUnit.msgRun d ∈ (drainWaitingGo gs w).2 →
      ((lookupA d gs).getD GroupState.init).pending_tasks = [] := by
  induction w with
  | nil => intro gs _ d hd; simp [drainWaitingGo] at hd
  | cons c rest ih =>
    intro gs hw d hd
    obtain ⟨hcr, hrest⟩ := List.nodup_cons.mp hw
    rcases hpt : ((lookupA c gs).getD GroupState.init).pending_tasks with _ | ⟨t, ts⟩
    · simp only [drainWaitingGo, hpt] at hd
      by_cases hpm : ((lookupA c gs).getD GroupState.init).pending_messages = true
      · rw [if_pos hpm] at hd
        rcases List.mem_cons.mp hd with h | h
        · have hdc : d = c := by injection h
          rw [hdc]; exact hpt
        · exact ih _ hrest _ h
      · rw [if_neg hpm] at hd
        exact ih _ hrest _ hd
    · simp only [drainWaitingGo, hpt] at hd
      rcases List.mem_cons.mp hd with h | h
      · exact absurd h (by simp)
      · have hdin := drainWaitingGo_chats rest _ _ h
        have hdc : d ≠ c := by
          intro hh; rw [hh] at hdin; exact hcr hdin
        have hrec := ih _ hrest _ h
        rwa [lookupA_setGroup_ne _ _ _ _ hdc] at hrec

/-- C8: task-before-message priority at drain time.  First conjunct: when
a unit of work for a group finishes while the group has both queued task
work and a pending message flag, `_drain_group` creates exactly the run of
the oldest queued task (and pops it), not a message check.  Second
conjunct: any message-check run created by `_drain_group` (directly or
through the `_drain_waiting` loop) is for a group whose task queue is
empty. -/
theorem c8_tasks_before_messages :
    (∀ (s : QueueSys) (c t : String) (ts : List String),
        s.shutting_down = false →
        (getGroup s c).pending_messages = true →
        (getGroup s c).pending_tasks = t :: ts →
        (drain_group s c).created = s.created ++ [WorkUnit.taskRun c t] ∧
        getGroup (drain_group s c) c = { getGroup s c with pending_tasks := ts }) ∧
    (∀ (s : QueueSys) (c d : String),
        s.waiting.Nodup →
        WorkUnit.msgRun d ∈ (drain_group s c).created →
        WorkUnit.msgRun d ∈ s.created ∨ (getGroup s d).pending_tasks = []) := by
  constructor
  · intro s c t ts hsd _hpm hpt
    simp only [drain_group, hsd, Bool.false_eq_true, if_false, hpt]
    refine ⟨trivial, ?_⟩
    show (lookupA c (setGroup s.groups c _)).getD GroupState.init = _
    rw [lookupA_setGroup_self]
    rfl
  · intro s c d hw hd
    by_cases hsd : s.shutting_down = true
    · rw [drain_group, if_pos hsd] at hd
      exact Or.inl hd
    · rcases hpt : (getGroup s c).pending_tasks with _ | ⟨t, ts⟩
      · simp only [drain_group, if_neg hsd, hpt] at hd
        by_cases hpm : (getGroup s c).pending_messages = true
        · rw [if_pos hpm] at hd
          rcases List.mem_append.mp hd with h | h
          · exact Or.inl h
          · have hdc : d = c := by
              have hh := List.mem_singleton.mp h
              injection hh
            rw [hdc]
            exact Or.inr hpt
        · rw [if_neg hpm] at hd
          unfold drain_waiting at hd
          by_cases hcap : s.active_count < s.maxConcurrent
          · rw [if_pos hcap] at hd
            rcases List.mem_append.mp hd with h | h
            · exact Or.inl h
            · exact Or.inr (drainWaitingGo_msgRun s.waiting s.groups hw d h)
          · rw [if_neg hcap] at hd
            exact Or.inl hd
      · simp only [drain_group, if_neg hsd, hpt] at hd
        rcases List.mem_append.mp hd with h | h
        · exact Or.inl h
        · exact absurd (List.mem_singleton.mp h) (by simp)

/-- Concrete state for the C8 witness: group "a" has two queued tasks and
a pending message flag. -/
def c8sys : QueueSys :=
  { initSys 2 with
    groups := [("a", { active := false, pending_messages := true,
                       pending_tasks := ["t1", "t2"], retry_count := 0 })] }

/-- Witness for C8: draining group "a" creates the run of its oldest
queued task "t1". -/
theorem c8_tasks_before_messages_witness :
    (drain_group c8sys "a").created = c8sys.created ++ [WorkUnit.taskRun "a" "t1"] ∧
    getGroup (drain_group c8sys "a") "a"
      = { getGroup c8sys "a" with pending_tasks := ["t2"] } :=
  c8_tasks_before_messages.1 c8sys "a" "t1" ["t2"] rfl rfl rfl

/-! ### Invariants of the synchronous-start semantics

These theorems show that the queue algorithm as written enforces the cap
and the one-unit-per-group property when each started unit runs its
prologue synchronously (the TypeScript original's behavior), which is
what the spec describes; the deferred Python semantics refuted above is
therefore a porting slip, not an algorithmic flaw. -/

theorem eraseIdx_length_add_one {α : Type} :
    ∀ (l : List α) (i : Nat), i < l.length → (l.eraseIdx i).length + 1 = l.length := by
  intro l
  induction l with
  | nil => intro i h; simp at h
  | cons a t ih =>
    intro i h
    cases i with
    | zero => simp [List.eraseIdx]
    | succ j =>
      simp only [List.eraseIdx, List.length_cons]
      rw [← ih j (by simpa using h)]

theorem eraseIdx_map_comm {α β : Type} (f : α → β) :
    ∀ (l : List α) (i : Nat), (l.eraseIdx i).map f = (l.map f).eraseIdx i := by
  intro l
  induction l with
  | nil => intro i; simp
  | cons a t ih =>
    intro i
    cases i with
    | zero => simp [List.eraseIdx]
    | succ j => simp [List.eraseIdx, ih j]

theorem nodup_eraseIdx {α : Type} :
    ∀ (l : List α) (i : Nat), l.Nodup → (l.eraseIdx i).Nodup := by
  intro l
  induction l with
  | nil => intro i _; simp
  | cons a t ih =>
    intro i h
    obtain ⟨hat, ht⟩ := List.nodup_cons.mp h
    cases i with
    | zero => simpa [List.eraseIdx] using ht
    | succ j =>
      simp only [List.eraseIdx]
      refine List.nodup_cons.mpr ⟨?_, ih j ht⟩
      intro hmem
      exact hat (List.Sublist.mem hmem (List.eraseIdx_sublist t j))

theorem mem_of_getElem_some {α : Type} :
    ∀ (l : List α) (i : Nat) (a : α), l[i]? = some a → a ∈ l := by
  intro l
  induction l with
  | nil => intro i a h; simp at h
  | cons b t ih =>
    intro i a h
    cases i with
    | zero =>
      simp only [List.getElem?_cons_zero, Option.some.injEq] at h
      rw [h]; exact List.mem_cons_self _ _
    | succ j =>
      simp only [List.getElem?_cons_succ] at h
      exact List.mem_cons_of_mem _ (ih j a h)

theorem not_mem_eraseIdx_of_nodup {α : Type} :
    ∀ (l : List α) (i : Nat) (a : α), l.Nodup → l[i]? = some a →
      a ∉ l.eraseIdx i := by
  intro l
  induction l with
  | nil => intro i a _ h; simp at h
  | cons b t ih =>
    intro i a hnd h
    obtain ⟨hbt, ht⟩ := List.nodup_cons.mp hnd
    cases i with
    | zero =>
      simp only [List.getElem?_cons_zero, Option.some.injEq] at h
      rw [h] at hbt
      simpa [List.eraseIdx] using hbt
    | succ j =>
      simp only [List.getElem?_cons_succ] at h
      simp only [List.eraseIdx, List.mem_cons]
      rintro (rfl | hmem)
      · exact hbt (mem_of_getElem_some t j a h)
      · exact ih j a ht h hmem

theorem mem_eraseIdx_iff_of_ne {α : Type} :
    ∀ (l : List α) (i : Nat) (a d : α), l[i]? = some a → d ≠ a →
      (d ∈ l.eraseIdx i ↔ d ∈ l) := by
  intro l
  induction l with
  | nil => intro i a d h; simp at h
  | cons b t ih =>
    intro i a d h hda
    cases i with
    | zero =>
      simp only [List.getElem?_cons_zero, Option.some.injEq] at h
      subst h
      simp only [List.eraseIdx, List.mem_cons]
      constructor
      · exact Or.inr
      · rintro (rfl | hm)
        · exact absurd rfl hda
        · exact hm
    | succ j =>
      simp only [List.getElem?_cons_succ] at h
      simp only [List.eraseIdx, List.mem_cons]
      rw [ih j a d h hda]

/-- Core invariant: the counter equals the number of running units, it
respects the cap, running units are for pairwise distinct groups, and a
group is marked active exactly when it has a running unit. -/
def ECore (s : ESys) : Prop :=
  s.active_count = s.running.length ∧
  s.active_count ≤ s.maxConcurrent ∧
  (s.running.map WorkUnit.chat).Nodup ∧
  (∀ d : String, (egetGroup s d).active = true ↔ d ∈ s.running.map WorkUnit.chat)

/-- Full invariant: the core, plus the waiting-list facts — while not
shutting down a non-empty waiting list means the cap is saturated,
waiting groups are inactive, and the waiting list has no duplicates. -/
def EInv (s : ESys) : Prop :=
  ECore s ∧
  (s.shutting_down = false → s.waiting ≠ [] → s.active_count = s.maxConcurrent) ∧
  (∀ d ∈ s.waiting, (egetGroup s d).active = false) ∧
  s.waiting.Nodup

theorem einitSys_inv (m : Nat) : EInv (einitSys m) := by
  refine ⟨⟨rfl, Nat.zero_le m, List.nodup_nil, ?_⟩, fun _ h => absurd rfl h,
    by intro d hd; simp [einitSys] at hd, List.nodup_nil⟩
  intro d
  simp [egetGroup, einitSys, lookupA, GroupState.init]

theorem ECore_setGroup (s : ESys) (c : String) (g' : GroupState)
    (hc : ECore s) (hg : g'.active = (egetGroup s c).active) :
    ECore { s with groups := setGroup s.groups c g' } := by
  obtain ⟨h1, h2, h3, h4⟩ := hc
  refine ⟨h1, h2, h3, ?_⟩
  intro d
  by_cases hdc : d = c
  · subst hdc
    have he : egetGroup { s with groups := setGroup s.groups d g' } d = g' := by
      simp [egetGroup, lookupA_setGroup_self]
    rw [he, hg]
    exact h4 d
  · have he : egetGroup { s with groups := setGroup s.groups c g' } d = egetGroup s d := by
      simp [egetGroup, lookupA_setGroup_ne _ _ _ _ hdc]
    rw [he]
    exact h4 d

theorem ECore_push (s : ESys) (c : String) (g' : GroupState) (u : WorkUnit)
    (hu : u.chat = c) (hg : g'.active = true)
    (hc : ECore s)
    (hcap : s.active_count < s.maxConcurrent)
    (hact : (egetGroup s c).active = false) :
    ECore { s with groups := setGroup s.groups c g',
                   active_count := s.active_count + 1,
                   running := s.running ++ [u] } := by
  obtain ⟨h1, h2, h3, h4⟩ := hc
  have hcnot : c ∉ s.running.map WorkUnit.chat := by
    intro hm
    rw [(h4 c).mpr hm] at hact
    exact absurd hact (by simp)
  refine ⟨?_, ?_, ?_, ?_⟩
  · simp [h1]
  · simpa using hcap
  · rw [List.map_append]
    rw [List.nodup_append]
    refine ⟨h3, by simp, ?_⟩
    intro a ha hmem
    rw [List.map_cons, List.map_nil, List.mem_singleton, hu] at hmem
    rw [hmem] at ha
    exact hcnot ha
  · intro d
    by_cases hdc : d = c
    · subst hdc
      have he : egetGroup { s with groups := setGroup s.groups d g',
                                   active_count := s.active_count + 1,
                                   running := s.running ++ [u] } d = g' := by
        simp [egetGroup, lookupA_setGroup_self]
      rw [he, hg]
      simp [hu]
    · have he : egetGroup { s with groups := setGroup s.groups c g',
                                   active_count := s.active_count + 1,
                                   running := s.running ++ [u] } d
          = egetGroup s d := by
        simp [egetGroup, lookupA_setGroup_ne _ _ _ _ hdc]
      rw [he]
      rw [List.map_append, List.mem_append]
      simp only [List.map_cons, List.map_nil, List.mem_singleton, hu]
      constructor
      · intro ha
        exact Or.inl ((h4 d).mp ha)
      · rintro (hm | hm)
        · exact (h4 d).mpr hm
        · exact absurd hm hdc

theorem EInv_push_parts (s : ESys) (c : String) (g' : GroupState) (u : WorkUnit)
    (hu : u.chat = c) (hg : g'.active = true)
    (hcore : ECore s)
    (hcap : s.active_count < s.maxConcurrent)
    (hact : (egetGroup s c).active = false)
    (h5 : s.shutting_down = false → s.waiting ≠ [] →
        s.active_count + 1 = s.maxConcurrent)
    (h6 : ∀ d ∈ s.waiting, (egetGroup s d).active = false)
    (h7 : s.waiting.Nodup)
    (hw : c ∉ s.waiting) :
    EInv { s with groups := setGroup s.groups c g',
                  active_count := s.active_count + 1,
                  running := s.running ++ [u] } := by
  refine ⟨ECore_push s c g' u hu hg hcore hcap hact, ?_, ?_, h7⟩
  · intro hf hne
    exact h5 hf hne
  · intro d hd
    have hdc : d ≠ c := fun hh => hw (hh ▸ hd)
    have he : egetGroup { s with groups := setGroup s.groups c g',
                                 active_count := s.active_count + 1,
                                 running := s.running ++ [u] } d
        = egetGroup s d := by
      simp [egetGroup, lookupA_setGroup_ne _ _ _ _ hdc]
    rw [he]
    exact h6 d hd

theorem EInv_setGroup (s : ESys) (c : String) (g' : GroupState)
    (hinv : EInv s) (hg : g'.active = (egetGroup s c).active) :
    EInv { s with groups := setGroup s.groups c g' } := by
  obtain ⟨hcore, h5, h6, h7⟩ := hinv
  refine ⟨ECore_setGroup s c g' hcore hg, h5, ?_, h7⟩
  intro d hd
  by_cases hdc : d = c
  · subst hdc
    have he : egetGroup { s with groups := setGroup s.groups d g' } d = g' := by
      simp [egetGroup, lookupA_setGroup_self]
    rw [he, hg]
    exact h6 d hd
  · have he : egetGroup { s with groups := setGroup s.groups c g' } d = egetGroup s d := by
      simp [egetGroup, lookupA_setGroup_ne _ _ _ _ hdc]
    rw [he]
    exact h6 d hd

theorem EInv_waiting_append (s : ESys) (c : String)
    (hinv : EInv s) (hcap : s.maxConcurrent ≤ s.active_count)
    (hact : (egetGroup s c).active = false) (hmem : c ∉ s.waiting) :
    EInv { s with waiting := s.waiting ++ [c] } := by
  obtain ⟨hcore, _h5, h6, h7⟩ := hinv
  refine ⟨hcore, ?_, ?_, ?_⟩
  · intro _ _
    exact Nat.le_antisymm hcore.2.1 hcap
  · intro d hd
    rcases List.mem_append.mp hd with h | h
    · exact h6 d h
    · rw [List.mem_singleton.mp h]
      exact hact
  · rw [List.nodup_append]
    exact ⟨h7, List.nodup_singleton c, by simpa using hmem⟩

/-- Abbreviation used in the drain proofs: the state after popping the
oldest queued task of group `c`, leaving `ts` queued. -/
def epopTask (s : ESys) (c : String) (ts : List String) : ESys :=
  { s with groups := setGroup s.groups c { egetGroup s c with pending_tasks := ts } }

theorem edrainWaitingGo_inv :
    ∀ (w : List String) (s : ESys),
      ECore s → s.waiting = [] → w.Nodup →
      (∀ d ∈ w, (egetGroup s d).active = false) →
      EInv (edrainWaitingGo w s) := by
  intro w
  induction w with
  | nil =>
    intro s hcore hwe _ _
    show EInv s
    refine ⟨hcore, ?_, ?_, ?_⟩
    · intro _ hne
      exact absurd hwe hne
    · intro d hd
      rw [hwe] at hd
      simp at hd
    · rw [hwe]
      exact List.nodup_nil
  | cons c rest ih =>
    intro s hcore hwe hnd hin
    obtain ⟨hcr, hrest⟩ := List.nodup_cons.mp hnd
    have hactc : (egetGroup s c).active = false := hin c (List.mem_cons_self _ _)
    by_cases hcap : s.active_count < s.maxConcurrent
    · rcases hpt : (egetGroup s c).pending_tasks with _ | ⟨t, ts⟩
      · by_cases hpm : (egetGroup s c).pending_messages = true
        · have hstep : edrainWaitingGo (c :: rest) s
              = edrainWaitingGo rest (estartMsg s c) := by
            simp only [edrainWaitingGo, hpt]
            rw [if_pos hcap, if_pos hpm]
          rw [hstep]
          apply ih
          · exact ECore_push s c
              { egetGroup s c with active := true, pending_messages := false }
              (WorkUnit.msgRun c) rfl rfl hcore hcap hactc
          · exact hwe
          · exact hrest
          · intro d hd
            have hdc : d ≠ c := fun hh => hcr (hh ▸ hd)
            have he : egetGroup (estartMsg s c) d = egetGroup s d := by
              simp [estartMsg, egetGroup, lookupA_setGroup_ne _ _ _ _ hdc]
            rw [he]
            exact hin d (List.mem_cons_of_mem _ hd)
        · have hstep : edrainWaitingGo (c :: rest) s = edrainWaitingGo rest s := by
            simp only [edrainWaitingGo, hpt]
            rw [if_pos hcap, if_neg hpm]
          rw [hstep]
          exact ih s hcore hwe hrest (fun d hd => hin d (List.mem_cons_of_mem _ hd))
      · have hstep : edrainWaitingGo (c :: rest) s
            = edrainWaitingGo rest (estartTask (epopTask s c ts) c t) := by
          simp only [edrainWaitingGo, hpt]
          rw [if_pos hcap]
          rfl
        rw [hstep]
        have hcoreA : ECore (epopTask s c ts) :=
          ECore_setGroup s c { egetGroup s c with pending_tasks := ts } hcore rfl
        have heqA : egetGroup (epopTask s c ts) c
            = { egetGroup s c with pending_tasks := ts } := by
          simp [epopTask, egetGroup, lookupA_setGroup_self]
        apply ih
        · exact ECore_push (epopTask s c ts) c
            { egetGroup (epopTask s c ts) c with active := true }
            (WorkUnit.taskRun c t) rfl rfl hcoreA hcap (by rw [heqA]; exact hactc)
        · exact hwe
        · exact hrest
        · intro d hd
          have hdc : d ≠ c := fun hh => hcr (hh ▸ hd)
          have he : egetGroup (estartTask (epopTask s c ts) c t) d = egetGroup s d := by
            simp [estartTask, epopTask, egetGroup, lookupA_setGroup_ne _ _ _ _ hdc]
          rw [he]
          exact hin d (List.mem_cons_of_mem _ hd)
    · have hstep : edrainWaitingGo (c :: rest) s = { s with waiting := c :: rest } := by
        simp only [edrainWaitingGo]
        rw [if_neg hcap]
      rw [hstep]
      refine ⟨hcore, ?_, ?_, ?_⟩
      · intro _ _
        exact Nat.le_antisymm hcore.2.1 (Nat.le_of_not_lt hcap)
      · intro d hd
        exact hin d hd
      · exact hnd

theorem edrain_waiting_inv (s : ESys) (hcore : ECore s)
    (h6 : ∀ d ∈ s.waiting, (egetGroup s d).active = false)
    (h7 : s.waiting.Nodup) :
    EInv (edrain_waiting s) := by
  apply edrainWaitingGo_inv s.waiting { s with waiting := [] }
  · exact hcore
  · rfl
  · exact h7
  · intro d hd
    exact h6 d hd

theorem edrain_group_inv (s : ESys) (c : String)
    (hcore : ECore s)
    (hcap : s.active_count < s.maxConcurrent)
    (hact : (egetGroup s c).active = false)
    (hw : c ∉ s.waiting)
    (h5 : s.shutting_down = false → s.waiting ≠ [] →
        s.active_count + 1 = s.maxConcurrent)
    (h6 : ∀ d ∈ s.waiting, (egetGroup s d).active = false)
    (h7 : s.waiting.Nodup) :
    EInv (edrain_group s c) := by
  by_cases hsd : s.shutting_down = true
  · have hstep : edrain_group s c = s := by
      rw [edrain_group, if_pos hsd]
    rw [hstep]
    refine ⟨hcore, ?_, h6, h7⟩
    intro hf
    rw [hsd] at hf
    exact absurd hf (by simp)
  · rcases hpt : (egetGroup s c).pending_tasks with _ | ⟨t, ts⟩
    · by_cases hpm : (egetGroup s c).pending_messages = true
      · have hstep : edrain_group s c = estartMsg s c := by
          simp only [edrain_group, hpt]
          rw [if_neg hsd, if_pos hpm]
        rw [hstep]
        exact EInv_push_parts s c
          { egetGroup s c with active := true, pending_messages := false }
          (WorkUnit.msgRun c) rfl rfl hcore hcap hact h5 h6 h7 hw
      · have hstep : edrain_group s c = edrain_waiting s := by
          simp only [edrain_group, hpt]
          rw [if_neg hsd, if_neg hpm]
        rw [hstep]
        exact edrain_waiting_inv s hcore h6 h7
    · have hstep : edrain_group s c = estartTask (epopTask s c ts) c t := by
        simp only [edrain_group, hpt]
        rw [if_neg hsd]
        rfl
      rw [hstep]
      have heqA : egetGroup (epopTask s c ts) c
          = { egetGroup s c with pending_tasks := ts } := by
        simp [epopTask, egetGroup, lookupA_setGroup_self]
      refine EInv_push_parts (epopTask s c ts) c
        { egetGroup (epopTask s c ts) c with active := true }
        (WorkUnit.taskRun c t) rfl rfl
        (ECore_setGroup s c { egetGroup s c with pending_tasks := ts } hcore rfl)
        hcap (by rw [heqA]; exact hact) h5 ?_ h7 hw
      intro d hd
      have hdc : d ≠ c := fun hh => hw (hh ▸ hd)
      have he : egetGroup (epopTask s c ts) d = egetGroup s d := by
        simp [epopTask, egetGroup, lookupA_setGroup_ne _ _ _ _ hdc]
      rw [he]
      exact h6 d hd

/-- Abbreviation used in the finish proofs: the finally-block of a unit
of work — mark the group inactive and decrement the counter. -/
def edeactivate (s : ESys) (c : String) : ESys :=
  { s with groups := setGroup s.groups c { egetGroup s c with active := false },
           active_count := s.active_count - 1 }

theorem efinish_drain_inv (s s1 : ESys) (u : WorkUnit) (i : Nat)
    (hinv : EInv s)
    (hu : s.running[i]? = some u)
    (hrun : s1.running = s.running.eraseIdx i)
    (hcount : s1.active_count = s.active_count)
    (hwait : s1.waiting = s.waiting)
    (hflag : s1.shutting_down = s.shutting_down)
    (hmax : s1.maxConcurrent = s.maxConcurrent)
    (hacts : ∀ d, (egetGroup s1 d).active = (egetGroup s d).active) :
    EInv (edrain_group (edeactivate s1 u.chat) u.chat) := by
  obtain ⟨⟨h1, h2, h3, h4⟩, h5, h6, h7⟩ := hinv
  obtain ⟨hilen, -⟩ := List.getElem?_eq_some.mp hu
  have hmapi : (s.running.map WorkUnit.chat)[i]? = some u.chat := by
    rw [List.getElem?_map, hu]
    rfl
  have hclen : (s.running.eraseIdx i).length + 1 = s.running.length :=
    eraseIdx_length_add_one _ _ hilen
  have hcact : (egetGroup s u.chat).active = true :=
    (h4 _).mpr (mem_of_getElem_some _ _ _ hmapi)
  have hwni : u.chat ∉ s.waiting := by
    intro hm
    have hf := h6 _ hm
    rw [hf] at hcact
    exact absurd hcact (by simp)
  have hdeact : ∀ d, egetGroup (edeactivate s1 u.chat) d
      = if d = u.chat then { egetGroup s1 u.chat with active := false }
        else egetGroup s1 d := by
    intro d
    by_cases hdc : d = u.chat
    · subst hdc
      rw [if_pos rfl]
      simp [edeactivate, egetGroup, lookupA_setGroup_self]
    · rw [if_neg hdc]
      simp [edeactivate, egetGroup, lookupA_setGroup_ne _ _ _ _ hdc]
  apply edrain_group_inv
  · refine ⟨?_, ?_, ?_, ?_⟩
    · show s1.active_count - 1 = (s1.running).length
      rw [hcount, hrun]
      omega
    · show s1.active_count - 1 ≤ s1.maxConcurrent
      rw [hcount, hmax]
      omega
    · show ((s1.running).map WorkUnit.chat).Nodup
      rw [hrun, eraseIdx_map_comm]
      exact nodup_eraseIdx _ _ h3
    · intro d
      rw [hdeact d]
      by_cases hdc : d = u.chat
      · subst hdc
        rw [if_pos rfl]
        show false = true ↔ u.chat ∈ (s1.running).map WorkUnit.chat
        rw [hrun, eraseIdx_map_comm]
        constructor
        · intro hf; exact absurd hf (by simp)
        · intro hm
          exact absurd hm (not_mem_eraseIdx_of_nodup _ _ _ h3 hmapi)
      · rw [if_neg hdc]
        rw [hacts d]
        show _ ↔ d ∈ (s1.running).map WorkUnit.chat
        rw [hrun, eraseIdx_map_comm]
        rw [mem_eraseIdx_iff_of_ne _ _ _ _ hmapi hdc]
        exact h4 d
  · show s1.active_count - 1 < s1.maxConcurrent
    rw [hcount, hmax]
    omega
  · rw [hdeact u.chat, if_pos rfl]
  · show u.chat ∉ s1.waiting
    rw [hwait]
    exact hwni
  · intro hf hne
    rw [show (edeactivate s1 u.chat).shutting_down = s.shutting_down from hflag] at hf
    rw [show (edeactivate s1 u.chat).waiting = s.waiting from hwait] at hne
    show s1.active_count - 1 + 1 = s1.maxConcurrent
    rw [hcount, hmax]
    have := h5 hf hne
    omega
  · intro d hd
    rw [show (edeactivate s1 u.chat).waiting = s.waiting from hwait] at hd
    have hdc : d ≠ u.chat := fun hh => hwni (hh ▸ hd)
    rw [hdeact d, if_neg hdc, hacts d]
    exact h6 d hd
  · show (s1.waiting).Nodup
    rw [hwait]
    exact h7

/-- Abbreviation: the state after the try-block of a finished message
run — the unit removed from running, the group's retry_count updated. -/
def es1Retry (s : ESys) (i : Nat) (c : String) (rc : Nat) : ESys :=
  { s with running := s.running.eraseIdx i,
           groups := setGroup s.groups c { egetGroup s c with retry_count := rc } }

theorem es1Retry_acts (s : ESys) (i : Nat) (c : String) (rc : Nat) (d : String) :
    (egetGroup (es1Retry s i c rc) d).active = (egetGroup s d).active := by
  by_cases hdc : d = c
  · subst hdc
    simp [es1Retry, egetGroup, lookupA_setGroup_self]
  · simp [es1Retry, egetGroup, lookupA_setGroup_ne _ _ _ _ hdc]

/-- Abbreviation: the state after the try-block of a finished task run. -/
def es1Task (s : ESys) (i : Nat) : ESys :=
  { s with running := s.running.eraseIdx i }

theorem efinish_inv (s : ESys) (i : Nat) (ok : Bool) (s' : ESys)
    (hinv : EInv s) (h : efinish s i ok = some s') : EInv s' := by
  rcases hu : s.running[i]? with _ | u
  · simp only [efinish, hu] at h
    exact Option.noConfusion h
  · rcases u with c | ⟨c, tid⟩
    · cases ok with
      | true =>
        simp only [efinish, hu, WorkUnit.chat, eq_self_iff_true, if_true] at h
        rw [← Option.some.inj h]
        exact efinish_drain_inv s (es1Retry s i c 0) (WorkUnit.msgRun c) i hinv hu
          rfl rfl rfl rfl rfl (fun d => es1Retry_acts s i c 0 d)
      | false =>
        have hgg : egetGroup { s with running := s.running.eraseIdx i } c
            = egetGroup s c := rfl
        rcases hr : (schedule_retry (egetGroup s c).retry_count).1 with _ | dl
        · simp only [efinish, hu, WorkUnit.chat, Bool.false_eq_true, if_false,
            hgg, hr] at h
          rw [← Option.some.inj h]
          exact efinish_drain_inv s
            (es1Retry s i c (schedule_retry (egetGroup s c).retry_count).2)
            (WorkUnit.msgRun c) i hinv hu rfl rfl rfl rfl rfl
            (fun d => es1Retry_acts s i c _ d)
        · simp only [efinish, hu, WorkUnit.chat, Bool.false_eq_true, if_false,
            hgg, hr] at h
          rw [← Option.some.inj h]
          exact efinish_drain_inv s
            { es1Retry s i c (schedule_retry (egetGroup s c).retry_count).2 with
                retries := s.retries ++ [c] }
            (WorkUnit.msgRun c) i hinv hu rfl rfl rfl rfl rfl
            (fun d => es1Retry_acts s i c _ d)
    · simp only [efinish, hu, WorkUnit.chat] at h
      rw [← Option.some.inj h]
      exact efinish_drain_inv s (es1Task s i) (WorkUnit.taskRun c tid) i hinv hu
        rfl rfl rfl rfl rfl (fun d => rfl)

/-- Abbreviation: the state after setting a group's pending-message
flag. -/
def eflagMsg (s : ESys) (c : String) : ESys :=
  { s with groups := setGroup s.groups c { egetGroup s c with pending_messages := true } }

/-- Abbreviation: the state after appending a task id to a group's
pending-task queue. -/
def equeueTask (s : ESys) (c : String) (taskId : String) : ESys :=
  let g := egetGroup s c
  { s with groups := setGroup s.groups c { g with pending_tasks := g.pending_tasks ++ [taskId] } }

theorem eenqueue_message_check_inv (s : ESys) (c : String) (hinv : EInv s) :
    EInv (eenqueue_message_check s c) := by
  by_cases hsd : s.shutting_down = true
  · have hstep : eenqueue_message_check s c = s := by
      rw [eenqueue_message_check, if_pos hsd]
    rw [hstep]
    exact hinv
  · by_cases hact : (egetGroup s c).active = true
    · have hstep : eenqueue_message_check s c = eflagMsg s c := by
        simp only [eenqueue_message_check]
        rw [if_neg hsd, if_pos hact]
        rfl
      rw [hstep]
      exact EInv_setGroup s c _ hinv rfl
    · have hactF : (egetGroup s c).active = false := by simpa using hact
      by_cases hcap : s.maxConcurrent ≤ s.active_count
      · by_cases hmem : c ∈ s.waiting
        · have hstep : eenqueue_message_check s c = eflagMsg s c := by
            simp only [eenqueue_message_check]
            rw [if_neg hsd, if_neg hact, if_pos hcap, if_pos hmem]
            rfl
          rw [hstep]
          exact EInv_setGroup s c _ hinv rfl
        · have hstep : eenqueue_message_check s c
              = { eflagMsg s c with waiting := (eflagMsg s c).waiting ++ [c] } := by
            simp only [eenqueue_message_check]
            rw [if_neg hsd, if_neg hact, if_pos hcap, if_neg hmem]
            rfl
          rw [hstep]
          refine EInv_waiting_append (eflagMsg s c) c
            (EInv_setGroup s c _ hinv rfl) hcap ?_ hmem
          have he : egetGroup (eflagMsg s c) c
              = { egetGroup s c with pending_messages := true } := by
            simp [eflagMsg, egetGroup, lookupA_setGroup_self]
          rw [he]
          exact hactF
      · have hcap2 : s.active_count < s.maxConcurrent := Nat.lt_of_not_le hcap
        have hf : s.shutting_down = false := by simpa using hsd
        have hwe : s.waiting = [] := by
          by_contra hne
          have := hinv.2.1 hf hne
          omega
        have hstep : eenqueue_message_check s c = estartMsg s c := by
          simp only [eenqueue_message_check]
          rw [if_neg hsd, if_neg hact, if_neg hcap]
        rw [hstep]
        exact EInv_push_parts s c
          { egetGroup s c with active := true, pending_messages := false }
          (WorkUnit.msgRun c) rfl rfl hinv.1 hcap2 hactF
          (fun _ hne => absurd hwe hne) hinv.2.2.1 hinv.2.2.2
          (by rw [hwe]; simp)

theorem eenqueue_task_inv (s : ESys) (c : String) (taskId : String)
    (hinv : EInv s) : EInv (eenqueue_task s c taskId) := by
  by_cases hsd : s.shutting_down = true
  · have hstep : eenqueue_task s c taskId = s := by
      rw [eenqueue_task, if_pos hsd]
    rw [hstep]
    exact hinv
  · by_cases hdup : (egetGroup s c).pending_tasks.any (fun t => t = taskId) = true
    · have hstep : eenqueue_task s c taskId = s := by
        simp only [eenqueue_task]
        rw [if_neg hsd, if_pos hdup]
      rw [hstep]
      exact hinv
    · by_cases hact : (egetGroup s c).active = true
      · have hstep : eenqueue_task s c taskId = equeueTask s c taskId := by
          simp only [eenqueue_task]
          rw [if_neg hsd, if_neg hdup, if_pos hact]
          rfl
        rw [hstep]
        exact EInv_setGroup s c _ hinv rfl
      · have hactF : (egetGroup s c).active = false := by simpa using hact
        by_cases hcap : s.maxConcurrent ≤ s.active_count
        · by_cases hmem : c ∈ s.waiting
          · have hstep : eenqueue_task s c taskId = equeueTask s c taskId := by
              simp only [eenqueue_task]
              rw [if_neg hsd, if_neg hdup, if_neg hact, if_pos hcap, if_pos hmem]
              rfl
            rw [hstep]
            exact EInv_setGroup s c _ hinv rfl
          · have hstep : eenqueue_task s c taskId
                = { equeueTask s c taskId with
                    waiting := (equeueTask s c taskId).waiting ++ [c] } := by
              simp only [eenqueue_task]
              rw [if_neg hsd, if_neg hdup, if_neg hact, if_pos hcap, if_neg hmem]
              rfl
            rw [hstep]
            refine EInv_waiting_append (equeueTask s c taskId) c
              (EInv_setGroup s c _ hinv rfl) hcap ?_ hmem
            have he : egetGroup (equeueTask s c taskId) c
                = { egetGroup s c with
                    pending_tasks := (egetGroup s c).pending_tasks ++ [taskId] } := by
              simp [equeueTask, egetGroup, lookupA_setGroup_self]
            rw [he]
            exact hactF
        · have hcap2 : s.active_count < s.maxConcurrent := Nat.lt_of_not_le hcap
          have hf : s.shutting_down = false := by simpa using hsd
          have hwe : s.waiting = [] := by
            by_contra hne
            have := hinv.2.1 hf hne
            omega
          have hstep : eenqueue_task s c taskId = estartTask s c taskId := by
            simp only [eenqueue_task]
            rw [if_neg hsd, if_neg hdup, if_neg hact, if_neg hcap]
          rw [hstep]
          exact EInv_push_parts s c { egetGroup s c with active := true }
            (WorkUnit.taskRun c taskId) rfl rfl hinv.1 hcap2 hactF
            (fun _ hne => absurd hwe hne) hinv.2.2.1 hinv.2.2.2
            (by rw [hwe]; simp)

theorem estep_inv (s : ESys) (e : EEvent) (s' : ESys)
    (hinv : EInv s) (h : estep s e = some s') : EInv s' := by
  cases e with
  | enqMsg c =>
    simp only [estep] at h
    rw [← Option.some.inj h]
    exact eenqueue_message_check_inv s c hinv
  | enqTask c t =>
    simp only [estep] at h
    rw [← Option.some.inj h]
    exact eenqueue_task_inv s c t hinv
  | finish i ok =>
    simp only [estep] at h
    exact efinish_inv s i ok s' hinv h
  | retryFire i =>
    simp only [estep] at h
    rcases hr : s.retries[i]? with _ | c
    · rw [hr] at h
      exact Option.noConfusion h
    · rw [hr] at h
      dsimp only at h
      have hinvR : EInv { s with retries := s.retries.eraseIdx i } := hinv
      by_cases hsd : ({ s with retries := s.retries.eraseIdx i } : ESys).shutting_down = true
      · rw [if_pos hsd] at h
        rw [← Option.some.inj h]
        exact hinvR
      · rw [if_neg hsd] at h
        rw [← Option.some.inj h]
        exact eenqueue_message_check_inv _ c hinvR
  | shutdown =>
    simp only [estep] at h
    rw [← Option.some.inj h]
    obtain ⟨hcore, _, h6, h7⟩ := hinv
    exact ⟨hcore, fun hf _ => absurd hf (by simp), h6, h7⟩

theorem erun_inv : ∀ (tr : List EEvent) (s s' : ESys),
    EInv s → erun s tr = some s' → EInv s' := by
  intro tr
  induction tr with
  | nil =>
    intro s s' hinv h
    rw [erun] at h
    rw [← Option.some.inj h]
    exact hinv
  | cons e rest ih =>
    intro s s' hinv h
    rw [erun] at h
    rcases hst : estep s e with _ | s1
    · rw [hst] at h
      exact Option.noConfusion h
    · rw [hst] at h
      exact ih s1 s' (estep_inv s e s1 hinv hst) (by simpa using h)

/-- Under the intended synchronous-start semantics (the TypeScript
original's behavior — a started unit marks its group active and
increments the counter at the call), the spec's global invariant holds in
every reachable state: the active count never exceeds the configured cap
and equals the number of running units of work. -/
theorem eager_cap_never_exceeded (m : Nat) (tr : List EEvent) (s : ESys)
    (h : erun (einitSys m) tr = some s) :
    s.active_count ≤ s.maxConcurrent ∧ s.active_count = s.running.length := by
  have hinv := erun_inv tr (einitSys m) s (einitSys_inv m) h
  exact ⟨hinv.1.2.1, hinv.1.1⟩

/-- Under the intended synchronous-start semantics, at most one unit of
work is active per group in every reachable state: running units belong
to pairwise distinct groups, and a group's active flag is set exactly
when it has a running unit. -/
theorem eager_one_unit_per_group (m : Nat) (tr : List EEvent) (s : ESys)
    (h : erun (einitSys m) tr = some s) :
    (s.running.map WorkUnit.chat).Nodup ∧
    (∀ d : String, (egetGroup s d).active = true ↔
        d ∈ s.running.map WorkUnit.chat) := by
  have hinv := erun_inv tr (einitSys m) s (einitSys_inv m) h
  exact ⟨hinv.1.2.2.1, hinv.1.2.2.2⟩

theorem getLastD_cons {α : Type} (a x : α) (l : List α) :
    (a :: l).getLast?.getD x = l.getLast?.getD a := by
  cases l with
  | nil => rfl
  | cons b t =>
    rw [List.getLast?_cons_cons]
    obtain ⟨y, hy⟩ := Option.isSome_iff_exists.mp
      (List.getLast?_isSome.mpr (List.cons_ne_nil b t))
    rw [hy]
    rfl

/-- Refinement of the reader against the spec-side block extraction: as
long as the cumulative size of block-content lines stays within the cap,
the reader delivers exactly the well-formed blocks whose content parses,
in stream order, and its terminal value is the last parsed envelope (or
the incoming terminal value when none parses). -/
theorem readLines_spec (parse : String → Option ContainerOutput) (maxSize : Nat) :
    ∀ (lines : List String) (fin : ContainerOutput) (buf : List String)
      (io : Bool) (tot : Nat) (outs : List ContainerOutput),
      tot + specSizeGo io lines ≤ maxSize →
      (readLines parse maxSize ⟨fin, buf, io, tot, outs⟩ lines).outputs
          = outs ++ (specBlocksGo io buf lines).filterMap parse ∧
      (readLines parse maxSize ⟨fin, buf, io, tot, outs⟩ lines).final
          = ((specBlocksGo io buf lines).filterMap parse).getLast?.getD fin := by
  intro lines
  induction lines with
  | nil => intro fin buf io tot outs _; simp [readLines, specBlocksGo]
  | cons l rest ih =>
    intro fin buf io tot outs hsz
    rw [readLines, List.foldl_cons]
    by_cases hst : l = OUTPUT_START
    · subst hst
      rw [specSizeGo, if_pos rfl] at hsz
      have hstep : readStep parse maxSize ⟨fin, buf, io, tot, outs⟩ OUTPUT_START
          = ⟨fin, [], true, tot, outs⟩ := by
        rw [readStep, if_pos rfl]
      rw [hstep, specBlocksGo, if_pos rfl]
      have hrec := ih fin [] true tot outs hsz
      rw [readLines] at hrec
      exact hrec
    · cases io with
      | false =>
        have hend : ¬(l = OUTPUT_END ∧ false = true) := by simp
        rw [specSizeGo, if_neg hst, if_neg hend, if_neg (by simp)] at hsz
        have hstep : readStep parse maxSize ⟨fin, buf, false, tot, outs⟩ l
            = ⟨fin, buf, false, tot, outs⟩ := by
          rw [readStep, if_neg hst, if_neg hend, if_neg (by simp)]
        rw [hstep, specBlocksGo, if_neg hst, if_neg hend, if_neg (by simp)]
        have hrec := ih fin buf false tot outs hsz
        rw [readLines] at hrec
        exact hrec
      | true =>
        by_cases hl : l = OUTPUT_END
        · subst hl
          have hend : OUTPUT_END = OUTPUT_END ∧ true = true := ⟨rfl, rfl⟩
          rw [specSizeGo, if_neg hst, if_pos hend] at hsz
          rw [specBlocksGo, if_neg hst, if_pos hend]
          rcases hp : parse (String.intercalate "\n" buf) with _ | out
          · have hstep : readStep parse maxSize ⟨fin, buf, true, tot, outs⟩ OUTPUT_END
                = ⟨fin, buf, false, tot, outs⟩ := by
              rw [readStep, if_neg hst, if_pos hend]
              simp only [hp]
            rw [hstep]
            have hrec := ih fin buf false tot outs hsz
            rw [readLines] at hrec
            rw [List.filterMap_cons, hp]
            exact hrec
          · have hstep : readStep parse maxSize ⟨fin, buf, true, tot, outs⟩ OUTPUT_END
                = ⟨out, buf, false, tot, outs ++ [out]⟩ := by
              rw [readStep, if_neg hst, if_pos hend]
              simp only [hp]
            rw [hstep]
            have hrec := ih out buf false tot (outs ++ [out]) hsz
            rw [readLines] at hrec
            rw [List.filterMap_cons, hp]
            constructor
            · rw [hrec.1, List.append_assoc]
              rfl
            · rw [hrec.2, getLastD_cons]
        · have hend : ¬(l = OUTPUT_END ∧ true = true) := fun hh => hl hh.1
          rw [specSizeGo, if_neg hst, if_neg hend, if_pos rfl] at hsz
          have hcap : ¬(maxSize < tot + l.length) := by omega
          have hstep : readStep parse maxSize ⟨fin, buf, true, tot, outs⟩ l
              = ⟨fin, buf ++ [l], true, tot + l.length, outs⟩ := by
            rw [readStep, if_neg hst, if_neg hend, if_pos rfl, if_neg hcap]
          rw [hstep, specBlocksGo, if_neg hst, if_neg hend, if_pos rfl]
          have hrec := ih fin (buf ++ [l]) true (tot + l.length) outs (by omega)
          rw [readLines] at hrec
          exact hrec

/-- C6 (amended with the size-cap proviso): on any stream whose
block-content size stays within the cap, the reader yields one parsed
envelope per well-formed block whose content parses, in stream order,
delivering each to on_output (the `outputs` list), skipping unmatched
markers and non-parsing blocks, and the terminal result is the last
parsed envelope, or the default no-output error when none parses. -/
theorem c6_reader_yields_blocks (parse : String → Option ContainerOutput)
    (maxSize : Nat) (lines : List String) (h : specSize lines ≤ maxSize) :
    (read_container_output parse maxSize lines).outputs
        = (specBlocks lines).filterMap parse ∧
    (read_container_output parse maxSize lines).final
        = ((specBlocks lines).filterMap parse).getLast?.getD noOutputReceived := by
  have := readLines_spec parse maxSize lines noOutputReceived [] false 0 []
    (by simpa [specSize] using h)
  simpa [read_container_output, specBlocks, initRState] using this

/-- Envelope used in the reader counterexamples and witnesses. -/
def exOutput : ContainerOutput :=
  { status := "success", result := some "r", new_session_id := none, error := none }

/-- Parse oracle for the C6 counterexample: exactly the block content
"abcdef" parses. -/
def parseEx : String → Option ContainerOutput :=
  fun s => if s = "abcdef" then some exOutput else none

/-- Stream for the C6 counterexample: a single well-formed block whose
six bytes of content exceed a cap of 5. -/
def linesEx : List String := [OUTPUT_START, "abcdef", OUTPUT_END]

/-- C6 as stated is false on the code: with the output-size cap at 5
bytes, a stream with one well-formed block of 6 bytes of parseable
content yields no envelope at all, although the claim promises exactly
one envelope per well-formed block for every stream. -/
theorem c6_counterexample :
    (read_container_output parseEx 5 linesEx).outputs = [] ∧
    (specBlocks linesEx).filterMap parseEx = [exOutput] :=
  ⟨rfl, rfl⟩

/-- Witness for C6 on a concrete stream: two well-formed blocks with
noise and an unmatched end marker yield exactly the two envelopes in
order, with the second as terminal result. -/
theorem c6_reader_yields_blocks_witness :
    (read_container_output parseEx 1000
        ["noise", OUTPUT_END, OUTPUT_START, "abcdef", OUTPUT_END, "junk",
         OUTPUT_START, "abcdef", OUTPUT_END]).outputs
      = [exOutput, exOutput] ∧
    (read_container_output parseEx 1000
        ["noise", OUTPUT_END, OUTPUT_START, "abcdef", OUTPUT_END, "junk",
         OUTPUT_START, "abcdef", OUTPUT_END]).final
      = exOutput := by
  have h := c6_reader_yields_blocks parseEx 1000
    ["noise", OUTPUT_END, OUTPUT_START, "abcdef", OUTPUT_END, "junk",
     OUTPUT_START, "abcdef", OUTPUT_END] (by decide)
  rw [h.1, h.2]
  exact ⟨rfl, rfl⟩

/-- Parse oracle for the C7 counterexample: exactly the block content
"ok" parses. -/
def parseEx2 : String → Option ContainerOutput :=
  fun s => if s = "ok" then some exOutput else none

/-- Stream for the C7 counterexample: a first block breaches the cap,
then a second short well-formed block follows. -/
def linesEx2 : List String :=
  [OUTPUT_START, "aaaaaa", OUTPUT_END, OUTPUT_START, "ok", OUTPUT_END]

/-- C7 as stated is false on the code: after the first block breaches
the 5-byte cap, the following well-formed 2-byte block "ok" — which
parses — is not forwarded either, because `total_size` is cumulative and
never reset; the claim promises that every subsequent well-formed block
is still parsed and forwarded. -/
theorem c7_counterexample :
    (read_container_output parseEx2 5 linesEx2).outputs = [] ∧
    specBlocks linesEx2 = ["aaaaaa", "ok"] ∧
    parseEx2 "ok" = some exOutput :=
  ⟨rfl, rfl, rfl⟩

/-- C7 (amended): when the bytes accumulated inside marker blocks exceed
the configured maximum, the current block is abandoned (its envelope is
neither parsed nor forwarded) and the reader keeps consuming the stream
without failing; but since the cumulative counter is never reset, every
later block is abandoned as well: from any over-cap state, no further
envelope is ever produced and the terminal value is unchanged.  The
`parse "" = none` hypothesis reflects that `json.loads("")` always
raises. -/
theorem c7_cap_abandons_block (parse : String → Option ContainerOutput)
    (maxSize : Nat) (hparse : parse "" = none) :
    (∀ (st : RState) (line : String), st.in_output = true →
        line ≠ OUTPUT_START → line ≠ OUTPUT_END →
        maxSize < st.total_size + line.length →
        (readStep parse maxSize st line).in_output = false ∧
        (readStep parse maxSize st line).outputs = st.outputs ∧
        (readStep parse maxSize st line).final = st.final) ∧
    (∀ (lines : List String) (st : RState), maxSize < st.total_size →
        (st.in_output = true → st.buffer = []) →
        (readLines parse maxSize st lines).outputs = st.outputs ∧
        (readLines parse maxSize st lines).final = st.final) := by
  constructor
  · intro st line hin hst hend hcap
    have hne : ¬(line = OUTPUT_END ∧ st.in_output = true) := fun hh => hend hh.1
    rw [readStep, if_neg hst, if_neg hne, if_pos hin, if_pos hcap]
    exact ⟨rfl, rfl, rfl⟩
  · intro lines
    induction lines with
    | nil => intro st _ _; exact ⟨rfl, rfl⟩
    | cons l rest ih =>
      intro st hover hbuf
      by_cases hst : l = OUTPUT_START
      · have hstep : readStep parse maxSize st l
            = { st with in_output := true, buffer := [] } := by
          rw [readStep, if_pos hst]
        have := ih { st with in_output := true, buffer := [] }
          (by simpa using hover) (by intro _; rfl)
        rw [readLines, List.foldl_cons, hstep]
        exact this
      · by_cases hend : l = OUTPUT_END ∧ st.in_output = true
        · have hbe : st.buffer = [] := hbuf hend.2
          have hstep : readStep parse maxSize st l = { st with in_output := false } := by
            rw [readStep, if_neg hst, if_pos hend, hbe]
            show (match parse (String.intercalate "\n" []) with
                  | some out => _
                  | none => _) = _
            rw [show String.intercalate "\n" ([] : List String) = "" from rfl, hparse]
          have := ih { st with in_output := false }
            (by simpa using hover) (by intro hh; exact absurd hh (by simp))
          rw [readLines, List.foldl_cons, hstep]
          exact this
        · by_cases hin : st.in_output = true
          · have hcap2 : maxSize < st.total_size + l.length := by omega
            have hstep : readStep parse maxSize st l
                = { st with total_size := st.total_size + l.length,
                            in_output := false } := by
              rw [readStep, if_neg hst, if_neg hend, if_pos hin, if_pos hcap2]
            have := ih { st with total_size := st.total_size + l.length,
                                 in_output := false }
              (by simp; omega) (by intro hh; exact absurd hh (by simp))
            rw [readLines, List.foldl_cons, hstep]
            exact this
          · have hstep : readStep parse maxSize st l = st := by
              rw [readStep, if_neg hst, if_neg hend, if_neg hin]
            have := ih st hover hbuf
            rw [readLines, List.foldl_cons, hstep]
            exact this

/-- Witness for C7: from a state already past the cap, processing more
lines (including a fresh well-formed block) produces no envelope and
leaves the terminal value unchanged. -/
theorem c7_cap_abandons_block_witness :
    (readLines (fun _ => none) 5
        { final := noOutputReceived, buffer := [], in_output := false,
          total_size := 6, outputs := [] }
        [OUTPUT_START, "ok", OUTPUT_END]).outputs = [] ∧
    (readLines (fun _ => none) 5
        { final := noOutputReceived, buffer := [], in_output := false,
          total_size := 6, outputs := [] }
        [OUTPUT_START, "ok", OUTPUT_END]).final = noOutputReceived :=
  (c7_cap_abandons_block (fun _ => none) 5 rfl).2
    [OUTPUT_START, "ok", OUTPUT_END]
    { final := noOutputReceived, buffer := [], in_output := false,
      total_size := 6, outputs := [] }
    (by decide) (by intro hh; exact absurd hh (by decide))

/-! ### Theorems: IPC schedule_task (C3, C9, C4) -/

/-- A schedule specification the creation path accepts: recognized kind
and a value its validator accepts. -/
def validSchedule (env : IpcEnv) (data : ScheduleRequest) : Prop :=
  (data.schedule_type = some "cron" ∧
      (env.cronNext (data.schedule_value.getD "")).isSome = true) ∨
  (data.schedule_type = some "interval" ∧
      ∃ ms, env.parseInt (data.schedule_value.getD "") = some ms ∧ 0 < ms) ∨
  (data.schedule_type = some "once" ∧
      (env.parseIso (data.schedule_value.getD "")).isSome = true)

/-- C3: IPC schedule_task authorization.  First conjunct: a request read
from a non-main mailbox whose target chat id resolves to a registered
group with a folder different from the source mailbox's folder creates no
job (the store is not mutated).  Second conjunct: the identical request
read from the main mailbox, with a registered target and a valid
schedule, creates exactly one job (the single `create_task` call of the
branch), for the target's folder, active, with a non-null next_run. -/
theorem c3_schedule_task_auth :
    (∀ (env : IpcEnv) (data : ScheduleRequest) (sourceGroup : String)
        (groups : List (String × RegisteredGroup)) (g : RegisteredGroup),
        lookupA ((pyOrOpt data.targetChatId data.targetJid).getD "") groups = some g →
        g.folder ≠ sourceGroup →
        (schedule_task_ipc env data sourceGroup false groups).job = none) ∧
    (∀ (env : IpcEnv) (data : ScheduleRequest) (sourceGroup : String)
        (groups : List (String × RegisteredGroup)) (g : RegisteredGroup),
        pyTruthy data.prompt = true → pyTruthy data.schedule_type = true →
        pyTruthy data.schedule_value = true →
        pyTruthy (pyOrOpt data.targetChatId data.targetJid) = true →
        lookupA ((pyOrOpt data.targetChatId data.targetJid).getD "") groups = some g →
        validSchedule env data →
        ((schedule_task_ipc env data sourceGroup true groups).job.map
            (fun t => (t.group_folder, t.status, t.next_run.isSome)))
          = some (g.folder, "active", true)) := by
  constructor
  · intro env data sourceGroup groups g hlk hfolder
    by_cases htr : (pyTruthy data.prompt && pyTruthy data.schedule_type &&
        pyTruthy data.schedule_value &&
        pyTruthy (pyOrOpt data.targetChatId data.targetJid)) = true
    · simp only [schedule_task_ipc, hlk]
      rw [if_neg (fun hc => hc htr), if_pos (by simp [hfolder])]
      rfl
    · simp only [schedule_task_ipc]
      rw [if_pos htr]
      rfl
  · intro env data sourceGroup groups g hp hty hv htc hlk hvalid
    have htr : (pyTruthy data.prompt && pyTruthy data.schedule_type &&
        pyTruthy data.schedule_value &&
        pyTruthy (pyOrOpt data.targetChatId data.targetJid)) = true := by
      rw [hp, hty, hv, htc]; rfl
    simp only [schedule_task_ipc, hlk]
    rw [if_neg (fun hc => hc htr), if_neg (by simp)]
    rcases hvalid with ⟨hst, hcn⟩ | ⟨hst, ms, hms, hpos⟩ | ⟨hst, hiso⟩
    · obtain ⟨nr, hnr⟩ := Option.isSome_iff_exists.mp hcn
      simp [hst, hnr, ScheduleOutcome.job]
    · simp [hst, hms, ScheduleOutcome.job, Nat.lt_irrefl, show ¬ms ≤ 0 by omega]
    · obtain ⟨nr, hnr⟩ := Option.isSome_iff_exists.mp hiso
      simp [hst, hnr, ScheduleOutcome.job]

/-- Registered-groups map used in concrete IPC examples. -/
def otherGroup : RegisteredGroup := { name := "Other", folder := "other-group" }

/-- Concrete registered-groups map with one entry. -/
def groupsEx : List (String × RegisteredGroup) := [("-100other", otherGroup)]

/-- Oracle bundle whose validators all fail (invalid cron / iso / int)
yet with concrete now, interval and id outputs. -/
def envEx : IpcEnv :=
  { cronNext := fun _ => none, parseIso := fun _ => none, parseInt := fun _ => none,
    intervalNext := fun _ => "2025-01-01T01:00:00+00:00",
    nowIso := "2025-01-01T00:00:00+00:00",
    freshTaskId := "task-1700000000000-abcdef01" }

/-- Oracle bundle whose validators succeed. -/
def envOk : IpcEnv :=
  { cronNext := fun _ => some "2025-01-02T09:00:00+00:00",
    parseIso := fun _ => some "2025-06-01T00:00:00+00:00",
    parseInt := fun s => if s = "3600000" then some 3600000 else none,
    intervalNext := fun _ => "2025-01-01T01:00:00+00:00",
    nowIso := "2025-01-01T00:00:00+00:00",
    freshTaskId := "task-1700000000000-abcdef01" }

/-- A well-formed once request targeting the registered group. -/
def reqOnce : ScheduleRequest :=
  { prompt := some "do it", schedule_type := some "once",
    schedule_value := some "2025-06-01T00:00:00.000Z",
    targetChatId := some "-100other", targetJid := none, context_mode := none }

/-- Witness for C3: the once request from a foreign non-main mailbox
creates no job; the identical request from the main mailbox creates the
job for the target's folder, active with a next_run. -/
theorem c3_schedule_task_auth_witness :
    (schedule_task_ipc envOk reqOnce "third-group" false groupsEx).job = none ∧
    ((schedule_task_ipc envOk reqOnce "main" true groupsEx).job.map
        (fun t => (t.group_folder, t.status, t.next_run.isSome)))
      = some ("other-group", "active", true) :=
  ⟨c3_schedule_task_auth.1 envOk reqOnce "third-group" groupsEx otherGroup rfl
      (by decide),
   c3_schedule_task_auth.2 envOk reqOnce "main" groupsEx otherGroup rfl rfl rfl rfl
      rfl (Or.inr (Or.inr ⟨rfl, rfl⟩))⟩

/-- An invalid schedule specification of one of the three kinds the
creation path validates: non-positive interval, invalid cron expression,
unparseable once timestamp. -/
def invalidSchedule (env : IpcEnv) (data : ScheduleRequest) : Prop :=
  (data.schedule_type = some "cron" ∧
      env.cronNext (data.schedule_value.getD "") = none) ∨
  (data.schedule_type = some "interval" ∧
      ∃ ms, env.parseInt (data.schedule_value.getD "") = some ms ∧ ms ≤ 0) ∨
  (data.schedule_type = some "once" ∧
      env.parseIso (data.schedule_value.getD "") = none)

/-- A request with an unrecognized schedule kind "daily". -/
def reqDaily : ScheduleRequest :=
  { prompt := some "do it", schedule_type := some "daily",
    schedule_value := some "whenever",
    targetChatId := some "-100other", targetJid := none, context_mode := none }

/-- C9 as stated is false on the code: a schedule_task request with the
unrecognized schedule kind "daily" is NOT rejected — `process_task_ipc`
has no else-branch for unknown kinds, so a job is created and persisted
(active, with null next_run). -/
theorem c9_counterexample :
    ((schedule_task_ipc envEx reqDaily "main" true groupsEx).job.map
        (fun t => (t.schedule_type, t.status, t.next_run)))
      = some ("daily", "active", none) :=
  rfl

/-- C9 (amended): a zero-or-negative interval, an invalid cron
expression, and an unparseable once timestamp are each rejected at
creation time with no job persisted; an unrecognized schedule kind,
however, is not rejected (see the counterexample). -/
theorem c9_invalid_schedule_rejected :
    ∀ (env : IpcEnv) (data : ScheduleRequest) (sourceGroup : String)
      (isMain : Bool) (groups : List (String × RegisteredGroup)),
      invalidSchedule env data →
      (schedule_task_ipc env data sourceGroup isMain groups).job = none := by
  intro env data sourceGroup isMain groups hinv
  by_cases htr : (pyTruthy data.prompt && pyTruthy data.schedule_type &&
      pyTruthy data.schedule_value &&
      pyTruthy (pyOrOpt data.targetChatId data.targetJid)) = true
  · simp only [schedule_task_ipc]
    rw [if_neg (fun hc => hc htr)]
    rcases hlk : lookupA ((pyOrOpt data.targetChatId data.targetJid).getD "") groups
      with _ | g
    · rfl
    · dsimp only
      by_cases hauth : isMain = false ∧ g.folder ≠ sourceGroup
      · rw [if_pos hauth]; rfl
      · rw [if_neg hauth]
        rcases hinv with ⟨hst, hcn⟩ | ⟨hst, ms, hms, hneg⟩ | ⟨hst, hiso⟩
        · simp [hst, hcn, ScheduleOutcome.job]
        · simp [hst, hms, hneg, ScheduleOutcome.job]
        · simp [hst, hiso, ScheduleOutcome.job]
  · simp only [schedule_task_ipc]
    rw [if_pos htr]
    rfl

/-- Witness for C9 (amended) at a concrete invalid cron request. -/
theorem c9_invalid_schedule_rejected_witness :
    (schedule_task_ipc envEx
        { prompt := some "do it", schedule_type := some "cron",
          schedule_value := some "not a cron",
          targetChatId := some "-100other", targetJid := none,
          context_mode := none }
        "main" true groupsEx).job = none :=
  c9_invalid_schedule_rejected envEx
    { prompt := some "do it", schedule_type := some "cron",
      schedule_value := some "not a cron",
      targetChatId := some "-100other", targetJid := none, context_mode := none }
    "main" true groupsEx (Or.inl ⟨rfl, rfl⟩)

/-- A request with an unrecognized schedule kind "weekly". -/
def reqWeekly : ScheduleRequest :=
  { prompt := some "do it", schedule_type := some "weekly",
    schedule_value := some "whenever",
    targetChatId := some "-100other", targetJid := none, context_mode := none }

/-- C4 as stated is false on the code: the creation path persists a job
with status "active" and null next_run when the schedule kind is
unrecognized (here "weekly"), so a non-completed, non-once job can have
null next_run. -/
theorem c4_counterexample :
    ((schedule_task_ipc envEx reqWeekly "main" true groupsEx).job.map
        (fun t => (t.status, t.schedule_type, t.next_run)))
      = some ("active", "weekly", none) :=
  rfl

/-- C4 (amended): restricted to the recognized schedule kinds, the
invariant holds on both reachable paths.  First conjunct (creation path):
every job created by schedule_task with kind cron/interval/once has
non-null next_run and status active (so the invariant holds at
creation).  Second conjunct (after-run path): updating an active job of
recognized kind with the next_run computed by `_run_task` yields a row
satisfying "next_run is null iff the job is a completed once job". -/
theorem c4_next_run_invariant :
    (∀ (env : IpcEnv) (data : ScheduleRequest) (sourceGroup : String)
        (isMain : Bool) (groups : List (String × RegisteredGroup))
        (t : ScheduledTask),
        (schedule_task_ipc env data sourceGroup isMain groups).job = some t →
        (t.schedule_type = "cron" ∨ t.schedule_type = "interval" ∨
            t.schedule_type = "once") →
        t.next_run.isSome = true ∧ t.status = "active") ∧
    (∀ (env : IpcEnv) (t : ScheduledTask) (nr : Option String) (now res : String),
        t.status = "active" →
        (t.schedule_type = "cron" ∨ t.schedule_type = "interval" ∨
            t.schedule_type = "once") →
        computeNextRunAfter env t = some nr →
        nextRunInv (update_task_after_run t nr now res)) := by
  constructor
  · intro env data sourceGroup isMain groups t hjob hkind
    simp only [schedule_task_ipc] at hjob
    by_cases htr : (pyTruthy data.prompt && pyTruthy data.schedule_type &&
        pyTruthy data.schedule_value &&
        pyTruthy (pyOrOpt data.targetChatId data.targetJid)) = true
    swap
    · rw [if_pos htr] at hjob
      exact absurd hjob (by simp [ScheduleOutcome.job])
    rw [if_neg (fun hc => hc htr)] at hjob
    rcases hlk : lookupA ((pyOrOpt data.targetChatId data.targetJid).getD "") groups
      with _ | g
    · rw [hlk] at hjob
      exact absurd hjob (by simp [ScheduleOutcome.job])
    rw [hlk] at hjob
    dsimp only at hjob
    by_cases hauth : isMain = false ∧ g.folder ≠ sourceGroup
    · rw [if_pos hauth] at hjob
      exact absurd hjob (by simp [ScheduleOutcome.job])
    rw [if_neg hauth] at hjob
    by_cases hc1 : data.schedule_type.getD "" = "cron"
    · rw [if_pos hc1] at hjob
      rcases hcn : env.cronNext (data.schedule_value.getD "") with _ | nr
      · rw [hcn] at hjob
        exact absurd hjob (by simp [ScheduleOutcome.job])
      · rw [hcn] at hjob
        simp only [ScheduleOutcome.job, Option.some.injEq] at hjob
        rw [← hjob]
        exact ⟨rfl, rfl⟩
    rw [if_neg hc1] at hjob
    by_cases hc2 : data.schedule_type.getD "" = "interval"
    · rw [if_pos hc2] at hjob
      rcases hms : env.parseInt (data.schedule_value.getD "") with _ | ms
      · rw [hms] at hjob
        exact absurd hjob (by simp [ScheduleOutcome.job])
      · rw [hms] at hjob
        dsimp only at hjob
        by_cases hle : ms ≤ 0
        · rw [if_pos hle] at hjob
          exact absurd hjob (by simp [ScheduleOutcome.job])
        · rw [if_neg hle] at hjob
          simp only [ScheduleOutcome.job, Option.some.injEq] at hjob
          rw [← hjob]
          exact ⟨rfl, rfl⟩
    rw [if_neg hc2] at hjob
    by_cases hc3 : data.schedule_type.getD "" = "once"
    · rw [if_pos hc3] at hjob
      rcases hiso : env.parseIso (data.schedule_value.getD "") with _ | nr
      · rw [hiso] at hjob
        exact absurd hjob (by simp [ScheduleOutcome.job])
      · rw [hiso] at hjob
        simp only [ScheduleOutcome.job, Option.some.injEq] at hjob
        rw [← hjob]
        exact ⟨rfl, rfl⟩
    · rw [if_neg hc3] at hjob
      simp only [ScheduleOutcome.job, Option.some.injEq] at hjob
      rw [← hjob] at hkind
      rcases hkind with h | h | h
      · exact absurd h hc1
      · exact absurd h hc2
      · exact absurd h hc3
  · intro env t nr now res hstatus hkind hnext
    rcases hkind with h | h | h
    · rw [computeNextRunAfter, if_pos h] at hnext
      rcases hcn : env.cronNext t.schedule_value with _ | x
      · rw [hcn] at hnext
        exact absurd hnext (by simp)
      · rw [hcn] at hnext
        have hnr : nr = some x := by
          injection hnext with hh
          exact hh.symm
        subst hnr
        simp [nextRunInv, update_task_after_run, hstatus]
    · rw [computeNextRunAfter, if_neg (by rw [h]; decide), if_pos h] at hnext
      rcases hms : env.parseInt t.schedule_value with _ | ms
      · rw [hms] at hnext
        exact absurd hnext (by simp)
      · rw [hms] at hnext
        have hnr : nr = some (env.intervalNext ms) := by
          injection hnext with hh
          exact hh.symm
        subst hnr
        simp [nextRunInv, update_task_after_run, hstatus]
    · rw [computeNextRunAfter, if_neg (by rw [h]; decide),
          if_neg (by rw [h]; decide)] at hnext
      have hnr : nr = none := by
        injection hnext with hh
        exact hh.symm
      subst hnr
      simp [nextRunInv, update_task_after_run, h]

/-- A concrete active once task. -/
def onceTask : ScheduledTask :=
  { id := "task-1", group_folder := "other-group", chat_id := "-100other",
    prompt := "do it", schedule_type := "once",
    schedule_value := "2025-06-01T00:00:00+00:00", context_mode := "isolated",
    next_run := some "2025-06-01T00:00:00+00:00", status := "active",
    created_at := "2025-01-01T00:00:00+00:00", last_run := none,
    last_result := none }

/-- Witness for C4 (amended) on concrete inputs: the once request from
the main mailbox creates an active job with a next_run, and running the
concrete once task leaves a completed row with null next_run, satisfying
the invariant. -/
theorem c4_next_run_invariant_witness :
    ((schedule_task_ipc envOk reqOnce "main" true groupsEx).job.map
        (fun t => (t.next_run.isSome, t.status))) = some (true, "active") ∧
    nextRunInv (update_task_after_run onceTask none
        "2025-06-01T00:00:01+00:00" "Completed") := by
  constructor
  · rfl
  · exact c4_next_run_invariant.2 envOk onceTask none
      "2025-06-01T00:00:01+00:00" "Completed" rfl (Or.inr (Or.inr rfl)) rfl

/-! ### Theorems: mount security (C10) -/

/-- The default blocked patterns merged into every loaded allowlist. -/
def DEFAULT_BLOCKED_PATTERNS : List String :=
  [".ssh", ".gnupg", ".gpg", ".aws", ".azure", ".gcloud", ".kube", ".docker",
   "credentials", ".env", ".netrc", ".npmrc", ".pypirc", "id_rsa",
   "id_ed25519", "private_key", ".secret"]

/-- Concrete mount environment: one allowed root `/data` that permits
read-write, the default blocked patterns, non-main forced read-only; the
filesystem oracles are the identity (all paths exist and are already
resolved). -/
def mountEnvEx : MountEnv :=
  { allowlist := some
      { allowed_roots := [{ path := "/data", allow_read_write := true,
                            description := none }],
        blocked_patterns := DEFAULT_BLOCKED_PATTERNS,
        non_main_read_only := true },
    expandPath := fun p => p, realPath := fun p => some p }

/-- A read-write mount request under the allowed root. -/
def mountEx : AdditionalMount :=
  { host_path := "/data/proj", container_path := none, readonly := false }

theorem pyOrTrue_eq_true (o : Option Bool) : pyOrTrue o = true := by
  rcases o with _ | b
  · rfl
  · rcases b with _ | _ <;> rfl

/-- C10: every mount emitted by validate_additional_mounts is read-only.
First conjunct: for every environment, mount list, group and main-flag,
every ValidatedMount in the output has readonly = true, because the
constructor passes `result.effective_readonly or True`, which is `True`
for every operand.  Second and third conjuncts: even when the requester
is main, the root allows read-write, and validate_mount itself computed
effective_readonly = False, the emitted mount is still read-only. -/
theorem c10_validated_mounts_readonly :
    (∀ (env : MountEnv) (mounts : List AdditionalMount) (groupName : String)
        (isMain : Bool) (vm : ValidatedMount),
        vm ∈ validate_additional_mounts env mounts groupName isMain →
        vm.readonly = true) ∧
    (validate_mount mountEnvEx mountEx true).effective_readonly = some false ∧
    validate_additional_mounts mountEnvEx [mountEx] "Main" true
      = [{ host_path := "/data/proj", container_path := "/workspace/extra/proj",
           readonly := true }] := by
  refine ⟨?_, rfl, rfl⟩
  intro env mounts groupName isMain vm hvm
  simp only [validate_additional_mounts, List.mem_filterMap] at hvm
  obtain ⟨m, _, hm⟩ := hvm
  by_cases ha : (validate_mount env m isMain).allowed = true
  · rw [if_pos ha] at hm
    have := (Option.some.injEq _ _).mp hm
    rw [← this]
    exact pyOrTrue_eq_true _
  · rw [if_neg ha] at hm
    exact absurd hm (by simp)

/-- Witness for C10: the concrete read-write-requested mount under the
read-write-allowing root is emitted read-only. -/
theorem c10_validated_mounts_readonly_witness :
    (ValidatedMount.mk "/data/proj" "/workspace/extra/proj" true).readonly = true :=
  c10_validated_mounts_readonly.1 mountEnvEx [mountEx] "Main" true _ (by decide)

end Nanoclaw
